import Mathlib

/-!
# udpdup: a UDP packet duplicator

Shallow embedding of `src/udpdup.go` and proofs about it.

## The model

* Go strings and byte slices are lists of bytes (`List Nat`, each entry the
  value of a `uint8`); the conversions `string(b)` and `[]byte(s)` are the
  identity. Values of type `int` and `rune` are `Int` and `Nat`; the program
  does no arithmetic on them that could overflow.
* The functions of the standard library on the data path are modelled after
  their Go sources: `strings.TrimSpace` (with `TrimFunc`, `TrimLeftFunc`,
  `TrimRightFunc`, `indexFunc`, `lastIndexFunc`), `utf8.DecodeRuneInString`,
  `utf8.DecodeLastRuneInString`, `unicode.IsSpace`, and `net.ParseIP` (the
  parser of `net/ip.go`, Go 1.17 to 1.21).
* The calls into the operating system (`os.Open`, `ioutil.ReadAll`,
  `net.ListenUDP`, `ReadFromUDP`, `WriteToUDP`) and `json.Unmarshal` are inputs
  of the model: the program is a function of what they return.
* `make([]byte, n)` succeeds for every `n ≥ 0` and panics for `n < 0`.
* Every statement `go sendUDPpkt(...)` is recorded, in the order in which the
  statements are executed, and the effect of each started call is recorded per
  call. The interleaving of the output of different goroutines is not
  modelled.
* Loops of the library are given fuel; the section on fuel shows that the fuel
  is never used up.
-/

namespace Udpdup

/-! ## unicode/utf8 -/

/-- The rune U+FFFD, returned for invalid encodings. -/
def RuneError : Nat := 0xFFFD

/-- Bytes below RuneSelf are single-byte runes. -/
def RuneSelf : Nat := 0x80

/-- Maximum number of bytes of an encoded rune. -/
def UTFMax : Nat := 4

/-- Lowest continuation byte. -/
def locb : Nat := 0x80

/-- Highest continuation byte. -/
def hicb : Nat := 0xBF

/-- Mask of the payload bits of a continuation byte. -/
def maskx : Nat := 0x3F

/-- Mask of the payload bits of the lead byte of a 2-byte encoding. -/
def mask2 : Nat := 0x1F

/-- Mask of the payload bits of the lead byte of a 3-byte encoding. -/
def mask3 : Nat := 0x0F

/-- Mask of the payload bits of the lead byte of a 4-byte encoding. -/
def mask4 : Nat := 0x07

/-- Entry of the table `first` for an invalid lead byte. -/
def xx : Nat := 0xF1

/-- Entry of the table `first` for an ASCII byte. -/
def as_ : Nat := 0xF0

/-- Entry of `first`: accept range 0, size 2. -/
def s1 : Nat := 0x02

/-- Entry of `first`: accept range 1, size 3. -/
def s2 : Nat := 0x13

/-- Entry of `first`: accept range 0, size 3. -/
def s3 : Nat := 0x03

/-- Entry of `first`: accept range 2, size 3. -/
def s4 : Nat := 0x23

/-- Entry of `first`: accept range 3, size 4. -/
def s5 : Nat := 0x34

/-- Entry of `first`: accept range 0, size 4. -/
def s6 : Nat := 0x04

/-- Entry of `first`: accept range 4, size 4. -/
def s7 : Nat := 0x44

/-- The table `utf8.first`: information about the first byte of an encoding.
Rows 0x00-0x7F are `as`, 0x80-0xC1 `xx`, 0xC2-0xDF `s1`, 0xE0 `s2`,
0xE1-0xEC `s3`, 0xED `s4`, 0xEE-0xEF `s3`, 0xF0 `s5`, 0xF1-0xF3 `s6`,
0xF4 `s7`, 0xF5-0xFF `xx`. -/
def first (b : Nat) : Nat :=
  if b < 0x80 then as_
  else if b < 0xC2 then xx
  else if b < 0xE0 then s1
  else if b = 0xE0 then s2
  else if b < 0xED then s3
  else if b = 0xED then s4
  else if b < 0xF0 then s3
  else if b = 0xF0 then s5
  else if b < 0xF4 then s6
  else if b = 0xF4 then s7
  else xx

/-- The table `utf8.acceptRanges`: the range (lo, hi) of valid values of the
second byte of an encoding. -/
def acceptRanges (i : Nat) : Nat × Nat :=
  match i with
  | 0 => (locb, hicb)
  | 1 => (0xA0, hicb)
  | 2 => (locb, 0x9F)
  | 3 => (0x90, hicb)
  | 4 => (locb, 0x8F)
  | _ => (0, 0)

/-- Go `utf8.DecodeRuneInString`: the first rune of `s` and its width in bytes;
`(RuneError, 0)` for the empty string, `(RuneError, 1)` for an invalid
encoding. -/
def DecodeRuneInString (s : List Nat) : Nat × Nat :=
  let n := s.length
  if n < 1 then (RuneError, 0)
  else
    let s0 := s.getD 0 0
    let x := first s0
    if x ≥ as_ then
      -- mask := rune(x) << 31 >> 31 is all ones when bit 0 of x is set (x = xx)
      -- and zero otherwise (x = as)
      if x % 2 = 1 then (RuneError, 1) else (s0, 1)
    else
      let sz := x &&& 7
      let accept := acceptRanges (x >>> 4)
      if n < sz then (RuneError, 1)
      else
        let b1 := s.getD 1 0
        if b1 < accept.1 ∨ accept.2 < b1 then (RuneError, 1)
        else if sz ≤ 2 then (((s0 &&& mask2) <<< 6) ||| (b1 &&& maskx), 2)
        else
          let b2 := s.getD 2 0
          if b2 < locb ∨ hicb < b2 then (RuneError, 1)
          else if sz ≤ 3 then
            (((s0 &&& mask3) <<< 12) ||| ((b1 &&& maskx) <<< 6) ||| (b2 &&& maskx), 3)
          else
            let b3 := s.getD 3 0
            if b3 < locb ∨ hicb < b3 then (RuneError, 1)
            else
              (((s0 &&& mask4) <<< 18) ||| ((b1 &&& maskx) <<< 12)
                ||| ((b2 &&& maskx) <<< 6) ||| (b3 &&& maskx), 4)

/-- Go `utf8.RuneStart`: the byte could be the first byte of an encoded rune
(it is not a continuation byte). -/
def RuneStart (b : Nat) : Bool :=
  (b &&& 0xC0) != 0x80

/-- The backward scan of `DecodeLastRuneInString`:
`for start--; start >= lim; start-- { if RuneStart(s[start]) { break } }`.
The argument `k` is `start + 1` before the test `start >= lim`, the result is
`start + 1` after the loop (so that `0` stands for `start = -1`); the loop
runs at most `fuel` times. -/
def scanStart (s : List Nat) (lim : Nat) : Nat → Nat → Nat
  | 0, k => k
  | fuel + 1, k =>
    if k ≥ lim + 1 then
      if RuneStart (s.getD (k - 1) 0) then k
      else scanStart s lim fuel (k - 1)
    else k

/-- Go `utf8.DecodeLastRuneInString`: the last rune of `s` and its width in
bytes; `(RuneError, 0)` for the empty string, `(RuneError, 1)` for an invalid
encoding. -/
def DecodeLastRuneInString (s : List Nat) : Nat × Nat :=
  let end_ := s.length
  if end_ = 0 then (RuneError, 0)
  else
    let start := end_ - 1
    let r := s.getD start 0
    if r < RuneSelf then (r, 1)
    else
      let lim := end_ - UTFMax
      -- start-- ; then the scan; k = start + 1
      let k := scanStart s lim UTFMax start
      -- if start < 0 { start = 0 }
      let start := k - 1
      let d := DecodeRuneInString ((s.drop start).take (end_ - start))
      if start + d.2 ≠ end_ then (RuneError, 1) else d

/-! ## unicode -/

/-- Highest Latin-1 code point. -/
def MaxLatin1 : Nat := 0xFF

/-- The 16-bit ranges (lo, hi, stride) of the table `unicode.White_Space`:
a range holds the code points `lo, lo + stride, ...` up to `hi`. -/
def White_Space : List (Nat × Nat × Nat) :=
  [(0x0009, 0x000d, 1), (0x0020, 0x0085, 101), (0x00a0, 0x1680, 5600),
   (0x2000, 0x200a, 1), (0x2028, 0x2029, 1), (0x202f, 0x205f, 48),
   (0x3000, 0x3000, 1)]

/-- Number of entries of `White_Space` with `hi ≤ MaxLatin1`. -/
def White_Space_LatinOffset : Nat := 2

/-- Go `unicode.is16`, the linear search (used for tables of at most 18
ranges): the first range that does not end before `r` decides. -/
def is16 : List (Nat × Nat × Nat) → Nat → Bool
  | [], _ => false
  | rg :: rest, r =>
    if r < rg.1 then false
    else if r ≤ rg.2.1 then rg.2.2 = 1 || (r - rg.1) % rg.2.2 = 0
    else is16 rest r

/-- Go `unicode.isExcludingLatin` for the table `White_Space` (which has no
32-bit ranges). -/
def isExcludingLatin (r : Nat) : Bool :=
  let r16 := White_Space
  let off := White_Space_LatinOffset
  if r16.length > off ∧ r ≤ (r16.getD (r16.length - 1) (0, 0, 0)).2.1 then
    is16 (r16.drop off) r
  else false

/-- Go `unicode.IsSpace`: in the Latin-1 space the white space characters are
tab, newline, vertical tab, form feed, carriage return, space, U+0085 (NEL) and
U+00A0 (NBSP); other code points are looked up in `White_Space`. -/
def IsSpace (r : Nat) : Bool :=
  if r ≤ MaxLatin1 then
    r = 0x09 || r = 0x0A || r = 0x0B || r = 0x0C || r = 0x0D || r = 0x20
      || r = 0x85 || r = 0xA0
  else isExcludingLatin r

/-! ## strings -/

/-- The table `strings.asciiSpace`: 1 for tab, newline, vertical tab, form
feed, carriage return and space, 0 for every other byte. -/
def asciiSpace (c : Nat) : Nat :=
  if c = 0x09 ∨ c = 0x0A ∨ c = 0x0B ∨ c = 0x0C ∨ c = 0x0D ∨ c = 0x20 then 1 else 0

/-- The loop of Go `strings.indexFunc`, `for i, r := range s`, on the rest
`s` of the string that starts at byte offset `i`: the offset of the first rune
with `f r = truth`, or -1. The loop runs at most `fuel` times. -/
def indexFuncLoop (f : Nat → Bool) (truth : Bool) : Nat → List Nat → Nat → Int
  | 0, _, _ => -1
  | fuel + 1, s, i =>
    if s.length = 0 then -1
    else
      let d := DecodeRuneInString s
      if f d.1 == truth then (i : Int)
      else indexFuncLoop f truth fuel (s.drop d.2) (i + d.2)

/-- Go `strings.indexFunc`. -/
def indexFunc (s : List Nat) (f : Nat → Bool) (truth : Bool) : Int :=
  indexFuncLoop f truth s.length s 0

/-- The loop of Go `strings.lastIndexFunc`, `for i := len(s); i > 0; `, from
the value `i`: the offset of the last rune with `f r = truth`, or -1. The loop
runs at most `fuel` times. -/
def lastIndexFuncLoop (s : List Nat) (f : Nat → Bool) (truth : Bool) : Nat → Nat → Int
  | 0, _ => -1
  | fuel + 1, i =>
    if i > 0 then
      let d := DecodeLastRuneInString (s.take i)
      let i := i - d.2
      if f d.1 == truth then (i : Int)
      else lastIndexFuncLoop s f truth fuel i
    else -1

/-- Go `strings.lastIndexFunc`. -/
def lastIndexFunc (s : List Nat) (f : Nat → Bool) (truth : Bool) : Int :=
  lastIndexFuncLoop s f truth s.length s.length

/-- Go `strings.TrimLeftFunc`. -/
def TrimLeftFunc (s : List Nat) (f : Nat → Bool) : List Nat :=
  let i := indexFunc s f false
  if i = -1 then [] else s.drop i.toNat

/-- Go `strings.TrimRightFunc`. -/
def TrimRightFunc (s : List Nat) (f : Nat → Bool) : List Nat :=
  let i := lastIndexFunc s f false
  let i :=
    if i ≥ 0 ∧ s.getD i.toNat 0 ≥ RuneSelf then
      i + ((DecodeRuneInString (s.drop i.toNat)).2 : Int)
    else i + 1
  s.take i.toNat

/-- Go `strings.TrimFunc`. -/
def TrimFunc (s : List Nat) (f : Nat → Bool) : List Nat :=
  TrimRightFunc (TrimLeftFunc s f) f

/-- Result of one of the two ASCII scans of `TrimSpace`. -/
inductive Scan where
  /-- The scan stopped at this index (loop ended or `break`). -/
  | stopped (i : Nat)
  /-- The scan met a non-ASCII byte at this loop index. -/
  | nonASCII (i : Nat)
deriving DecidableEq

/-- First loop of `strings.TrimSpace`:
`for ; start < len(s); start++`, on the rest `s` of the string at offset
`start`. -/
def trimStart : List Nat → Nat → Scan
  | [], start => .stopped start
  | c :: rest, start =>
    if c ≥ RuneSelf then .nonASCII start
    else if asciiSpace c = 0 then .stopped start
    else trimStart rest (start + 1)

/-- Second loop of `strings.TrimSpace`: `for ; stop > start; stop--`, the
argument is the reversed list of the bytes `s[start:stop]`, whose length is
`stop - start`. -/
def trimStop (start : Nat) : List Nat → Scan
  | [] => .stopped start
  | c :: rest =>
    if c ≥ RuneSelf then .nonASCII (start + rest.length + 1)
    else if asciiSpace c = 0 then .stopped (start + rest.length + 1)
    else trimStop start rest

/-- Go `strings.TrimSpace`: `s` without leading and trailing white space, as
defined by Unicode. -/
def TrimSpace (s : List Nat) : List Nat :=
  match trimStart s 0 with
  | .nonASCII start => TrimFunc (s.drop start) IsSpace
  | .stopped start =>
    match trimStop start ((s.drop start).reverse) with
    | .nonASCII stop => TrimRightFunc ((s.take stop).drop start) IsSpace
    | .stopped stop => (s.take stop).drop start

/-- The bytes of a string literal whose characters are all ASCII. -/
def ascii (s : String) : List Nat :=
  s.data.map Char.toNat

/-! ## net -/

/-- Length of an IPv4 address in bytes. -/
def IPv4len : Nat := 4

/-- Length of an IPv6 address in bytes. -/
def IPv6len : Nat := 16

/-- Bigger than we need, not too big to worry about overflow. -/
def big : Nat := 0xFFFFFF

/-- The loop of Go `net.dtoi` on the rest of the string at index `i` with the
value `n` read so far; the result is `(n, i, ok)`. -/
def dtoiLoop : List Nat → Nat → Nat → Nat × Nat × Bool
  | [], n, i => if i = 0 then (0, 0, false) else (n, i, true)
  | c :: rest, n, i =>
    if 0x30 ≤ c ∧ c ≤ 0x39 then
      let n := n * 10 + (c - 0x30)
      if n ≥ big then (big, i, false) else dtoiLoop rest n (i + 1)
    else if i = 0 then (0, 0, false) else (n, i, true)

/-- Go `net.dtoi`: decimal to integer; returns number, characters consumed,
success. -/
def dtoi (s : List Nat) : Nat × Nat × Bool :=
  dtoiLoop s 0 0

/-- The loop of Go `net.xtoi`. -/
def xtoiLoop : List Nat → Nat → Nat → Nat × Nat × Bool
  | [], n, i => if i = 0 then (0, i, false) else (n, i, true)
  | c :: rest, n, i =>
    if 0x30 ≤ c ∧ c ≤ 0x39 then
      let n := n * 16 + (c - 0x30)
      if n ≥ big then (0, i, false) else xtoiLoop rest n (i + 1)
    else if 0x61 ≤ c ∧ c ≤ 0x66 then
      let n := n * 16 + (c - 0x61) + 10
      if n ≥ big then (0, i, false) else xtoiLoop rest n (i + 1)
    else if 0x41 ≤ c ∧ c ≤ 0x46 then
      let n := n * 16 + (c - 0x41) + 10
      if n ≥ big then (0, i, false) else xtoiLoop rest n (i + 1)
    else if i = 0 then (0, i, false) else (n, i, true)

/-- Go `net.xtoi`: hexadecimal to integer; returns number, characters
consumed, success. -/
def xtoi (s : List Nat) : Nat × Nat × Bool :=
  xtoiLoop s 0 0

/-- The loop `for i := 0; i < IPv4len; i++` of Go `net.parseIPv4`: `k` rounds
are left, `p` holds the octets read so far. The result is the four octets and
the rest of the string. -/
def parseIPv4Loop : Nat → List Nat → List Nat → Option (List Nat × List Nat)
  | 0, s, p => some (p, s)
  | k + 1, s, p =>
    if s.length = 0 then none
    else
      let dotOk := p.length = 0 ∨ s.getD 0 0 = 0x2E
      if ¬ dotOk then none
      else
        let s := if p.length > 0 then s.drop 1 else s
        let r := dtoi s
        if ¬ r.2.2 ∨ r.1 > 0xFF then none
        else if r.2.1 > 1 ∧ s.getD 0 0 = 0x30 then none
        else parseIPv4Loop k (s.drop r.2.1) (p ++ [r.1])

/-- Go `net.IPv4`: the 16-byte form of an IPv4 address. -/
def IPv4 (a b c d : Nat) : List Nat :=
  [0, 0, 0, 0, 0, 0, 0, 0, 0, 0, 0xff, 0xff, a, b, c, d]

/-- Go `net.parseIPv4`: parse a dotted decimal IPv4 address; `none` is the
nil IP. -/
def parseIPv4 (s : List Nat) : Option (List Nat) :=
  match parseIPv4Loop IPv4len s [] with
  | some (p, rest) =>
    if rest.length ≠ 0 then none
    else some (IPv4 (p.getD 0 0) (p.getD 1 0) (p.getD 2 0) (p.getD 3 0))
  | none => none

/-- State of the main loop of `net.parseIPv6` when it is left. -/
structure V6State where
  /-- The 16 bytes of the address. -/
  ip : List Nat
  /-- Number of bytes filled. -/
  i : Nat
  /-- Rest of the string. -/
  s : List Nat
  /-- Position of the ellipsis in `ip`, or -1. -/
  ellipsis : Int

/-- The loop `for i < IPv6len` of Go `net.parseIPv6`, parsing hex numbers
followed by colon; `none` when the function returns nil from inside the loop.
Every round adds at least 2 to `i`, so `IPv6len` rounds of `fuel` are enough. -/
def parseIPv6Loop : Nat → V6State → Option V6State
  | 0, st => some st
  | fuel + 1, st =>
    if ¬ st.i < IPv6len then some st
    else
      let r := xtoi st.s
      if ¬ r.2.2 ∨ r.1 > 0xFFFF then none
      else
        let c := r.2.1
        if c < st.s.length ∧ st.s.getD c 0 = 0x2E then
          -- followed by dot: might be in trailing IPv4
          if st.ellipsis < 0 ∧ st.i ≠ IPv6len - IPv4len then none
          else if st.i + IPv4len > IPv6len then none
          else
            match parseIPv4 st.s with
            | none => none
            | some ip4 =>
              let ip := (((st.ip.set st.i (ip4.getD 12 0)).set (st.i + 1) (ip4.getD 13 0)).set
                (st.i + 2) (ip4.getD 14 0)).set (st.i + 3) (ip4.getD 15 0)
              some { st with ip := ip, s := [], i := st.i + IPv4len }
        else
          -- save this 16-bit chunk
          let ip := (st.ip.set st.i ((r.1 >>> 8) % 256)).set (st.i + 1) (r.1 % 256)
          let i := st.i + 2
          let s := st.s.drop c
          if s.length = 0 then some { st with ip := ip, i := i, s := s }
          else if s.getD 0 0 ≠ 0x3A ∨ s.length = 1 then none
          else
            let s := s.drop 1
            if s.getD 0 0 = 0x3A then
              if st.ellipsis ≥ 0 then none
              else
                let s := s.drop 1
                if s.length = 0 then some { ip := ip, i := i, s := s, ellipsis := i }
                else parseIPv6Loop fuel { ip := ip, i := i, s := s, ellipsis := i }
            else parseIPv6Loop fuel { st with ip := ip, i := i, s := s }

/-- Go `net.parseIPv6`: parse an IPv6 address literal (RFC 4291, RFC 5952);
`none` is the nil IP. -/
def parseIPv6 (s : List Nat) : Option (List Nat) :=
  let ip := List.replicate IPv6len 0
  let lead := s.length ≥ 2 ∧ s.getD 0 0 = 0x3A ∧ s.getD 1 0 = 0x3A
  let ellipsis : Int := if lead then 0 else -1
  let s := if lead then s.drop 2 else s
  if lead ∧ s.length = 0 then some ip
  else
    match parseIPv6Loop IPv6len { ip := ip, i := 0, s := s, ellipsis := ellipsis } with
    | none => none
    | some st =>
      if st.s.length ≠ 0 then none
      else if st.i < IPv6len then
        if st.ellipsis < 0 then none
        else
          -- expand the ellipsis: the bytes ip[ellipsis:i] move to the end
          -- and the gap is filled with zeros
          let e := st.ellipsis.toNat
          let n := IPv6len - st.i
          some (st.ip.take e ++ List.replicate n 0 ++ (st.ip.take st.i).drop e)
      else if st.ellipsis ≥ 0 then none
      else some st.ip

/-- Go `net.ParseIP`: parse `s` as an IPv4 dotted decimal or IPv6 address
literal, by the first of the characters `.` and `:` found in it; `none` is
the nil IP returned when `s` is not a valid textual representation of an IP
address. -/
def ParseIP (s : List Nat) : Option (List Nat) :=
  match s.find? (fun c => c = 0x2E ∨ c = 0x3A) with
  | some c => if c = 0x2E then parseIPv4 s else parseIPv6 s
  | none => none

/-- Go `net.UDPAddr` (without the zone). -/
structure UDPAddr where
  /-- The IP address, `none` for a nil IP. -/
  IP : Option (List Nat)
  /-- The port. -/
  Port : Int
deriving DecidableEq

/-- Go `*net.UDPConn`, as far as the program uses it: the connection is
identified by its local address. -/
structure UDPConn where
  /-- The value of `conn.LocalAddr()`. -/
  LocalAddr : UDPAddr
deriving DecidableEq

/-! ## The program -/

/-- The struct `Dest`. -/
structure Dest where
  /-- Field `IP string`. -/
  IP : List Nat
  /-- Field `Port int`. -/
  Port : Int
deriving DecidableEq

/-- The struct `Configuration`; the default values are the zero value
`Configuration{}`. -/
structure Configuration where
  /-- Field `Debug int`. -/
  Debug : Int := 0
  /-- Field `Port int`. -/
  Port : Int := 0
  /-- Field `MaxBuf int`. -/
  MaxBuf : Int := 0
  /-- Field `Dests []Dest`. -/
  Dests : List Dest := []
deriving DecidableEq

/-- A Go `error` value: `none` is nil, `some msg` an error with its text. -/
abbrev Error := Option String

/-- The file system as `getConfig` sees it: for a file name, `none` when
`os.Open` fails, otherwise the bytes that `ioutil.ReadAll` returns for the
opened file (the error of `ReadAll` is discarded by the source). -/
abbrev FileSystem := String → Option (List Nat)

/-- The function `json.Unmarshal(data, &c)`: from the data and the value of `c`
before the call to the value of `c` after the call and the error returned. -/
abbrev Unmarshaler := List Nat → Configuration → Configuration × Error

/-- The function `getConfig`. -/
def getConfig (Unmarshal : Unmarshaler) (fs : FileSystem) (fn : String) :
    Configuration × Error :=
  match fs fn with
  | none => ({}, some "Unable to open Config File!")
  | some byteValue =>
    let c : Configuration := {}
    -- json.Unmarshal(byteValue, &c): the returned error is not looked at
    let c := (Unmarshal byteValue c).1
    (c, none)

/-- A line written to standard output. -/
inductive Line where
  /-- The line `fmt.Println(err)` of `main`. -/
  | configError (err : String)
  /-- The line `server listening <local address>`. -/
  | listening (laddr : UDPAddr)
  /-- The text `<-- Error: <err>`. -/
  | recvError (err : String)
  /-- The line `fmt.Println(data)`: the received packet. -/
  | packet (data : List Nat)
  /-- The text `--> Error: Unable to send packet to <addr>`. -/
  | sendError (addr : UDPAddr)
  /-- The line `Sent  <n> bytes <local address> -> <addr>`. -/
  | sent (n : Int) (laddr : UDPAddr) (addr : UDPAddr)
deriving DecidableEq

/-- What a call `conn.WriteToUDP(b, addr)` returns: the number of bytes
written and the error. -/
structure WriteResult where
  /-- Number of bytes written. -/
  n : Int
  /-- The error, `none` for a successful send. -/
  err : Error
deriving DecidableEq

/-- The arguments of one statement `go sendUDPpkt(conn, &addr, data,
config.Debug)`. -/
structure SendCall where
  /-- Argument `addr`. -/
  addr : UDPAddr
  /-- Argument `pkt`. -/
  pkt : List Nat
  /-- Argument `debug`. -/
  debug : Int
deriving DecidableEq

/-- What one call of `sendUDPpkt` does. -/
structure SendEffect where
  /-- The bytes handed to `conn.WriteToUDP`. -/
  datagram : List Nat
  /-- The address handed to `conn.WriteToUDP`. -/
  dest : UDPAddr
  /-- The lines printed by the call. -/
  out : List Line
deriving DecidableEq

/-- The function `sendUDPpkt`; `w` is what its call of `conn.WriteToUDP`
returns. -/
def sendUDPpkt (conn : UDPConn) (addr : UDPAddr) (pkt : List Nat) (debug : Int)
    (w : WriteResult) : SendEffect :=
  let out1 := if w.err ≠ none then [Line.sendError addr] else []
  let out2 := if debug > 8 then [Line.sent w.n conn.LocalAddr addr] else []
  { datagram := pkt, dest := addr, out := out1 ++ out2 }

/-- What a call `conn.ReadFromUDP(message[:])` does: it stores `data` at the
start of the buffer (never more than the buffer holds) and returns the count
`rlen` and the error `err`. -/
structure ReadResult where
  /-- Bytes stored into the buffer. -/
  data : List Nat
  /-- Returned number of bytes. -/
  rlen : Int
  /-- Returned error, `none` for a successful read. -/
  err : Error
deriving DecidableEq

/-- The buffer `message` after the read: `make([]byte, maxbuf)` is zeroed and
the read overwrites its first bytes. -/
def bufferAfterRead (maxbuf : Nat) (data : List Nat) : List Nat :=
  data.take maxbuf ++ List.replicate (maxbuf - data.length) 0

/-- The outcome of one execution of the body of the `for` loop of `main`. -/
inductive Step where
  /-- The body ran to its end and the loop goes on with the next read: the
  lines printed by `main` and the `go sendUDPpkt` statements executed, in
  order. -/
  | next (out : List Line) (sends : List SendCall)
  /-- A run-time panic ended the process, after the lines `out`. -/
  | panic (out : List Line) (msg : String)
deriving DecidableEq

/-- The body of the `for` loop of `main` (lines 108-126), for the result
`rd` of its call of `ReadFromUDP`. -/
def loopBody (config : Configuration) (rd : ReadResult) : Step :=
  -- message := make([]byte, config.MaxBuf)
  if config.MaxBuf < 0 then .panic [] "makeslice: len out of range"
  else
    let message := bufferAfterRead config.MaxBuf.toNat rd.data
    let out1 := match rd.err with
      | some e => [Line.recvError e]
      | none => []
    -- message[:rlen]
    if rd.rlen < 0 ∨ rd.rlen > config.MaxBuf then .panic out1 "slice bounds out of range"
    else
      let data := TrimSpace (message.take rd.rlen.toNat)
      let out2 := if config.Debug > 9 then [Line.packet data] else []
      let sends := config.Dests.map fun dst =>
        { addr := { Port := dst.Port, IP := ParseIP dst.IP }, pkt := data,
          debug := config.Debug : SendCall }
      .next (out1 ++ out2) sends

/-- The `go sendUDPpkt` statements executed by a step. -/
def Step.sends : Step → List SendCall
  | .next _ sends => sends
  | .panic _ _ => []

/-- The lines printed by `main` in a step. -/
def Step.out : Step → List Line
  | .next out _ => out
  | .panic out _ => out

/-- The loop goes back to the read after the step. -/
def Step.continues : Step → Bool
  | .next _ _ => true
  | .panic _ _ => false

/-- The calls of `sendUDPpkt` started by a list of `go` statements; `w k` is
what `WriteToUDP` returns in the call started by the statement number `k`. -/
def runSends (conn : UDPConn) (w : Nat → WriteResult) : Nat → List SendCall → List SendEffect
  | _, [] => []
  | k, c :: rest => sendUDPpkt conn c.addr c.pkt c.debug (w k) :: runSends conn w (k + 1) rest

/-- One receive cycle: the step of `main` and the effect of every call of
`sendUDPpkt` it started. -/
structure Cycle where
  /-- The step of the loop of `main`. -/
  step : Step
  /-- The effects of the started calls, by position of the `go` statement. -/
  effects : List SendEffect
deriving DecidableEq

/-- One receive cycle for the read result `rd` and the results `w` of the
writes. -/
def cycle (config : Configuration) (conn : UDPConn) (rd : ReadResult)
    (w : Nat → WriteResult) : Cycle :=
  let st := loopBody config rd
  { step := st, effects := runSends conn w 0 st.sends }

/-- The `for` loop of `main` on the successive results of `ReadFromUDP`: the
steps executed. The loop has no exit: it stops only at a panic or when no
further read returns. -/
def mainLoop (config : Configuration) : List ReadResult → List Step
  | [] => []
  | rd :: rest =>
    match loopBody config rd with
    | .panic out msg => [.panic out msg]
    | .next out sends => .next out sends :: mainLoop config rest

/-- How the start of `main` (lines 87-104) ends. -/
inductive Startup where
  /-- The call `os.Exit(code)` after the lines `out`. -/
  | exit (out : List Line) (code : Nat)
  /-- The statement `panic(err)` after a failed `net.ListenUDP`. -/
  | panic (err : String)
  /-- The program entered the receive loop with this configuration and
  connection, after the lines `out`. -/
  | serving (config : Configuration) (conn : UDPConn) (out : List Line)
deriving DecidableEq

/-- The start of `main`, up to the `for` loop; `ListenUDP` is the result of
`net.ListenUDP("udp", addr)` for an address. -/
def mainStart (Unmarshal : Unmarshaler) (fs : FileSystem)
    (ListenUDP : UDPAddr → Except String UDPConn) : Startup :=
  match getConfig Unmarshal fs "./config.json" with
  | (_, some err) => .exit [Line.configError err] 1
  | (config, none) =>
    match ListenUDP { Port := config.Port, IP := ParseIP (ascii "0.0.0.0") } with
    | .error err => .panic err
    | .ok conn => .serving config conn [Line.listening conn.LocalAddr]

/-- The function `main`, run on the successive results `reads` of its calls of
`ReadFromUDP`: how the start ended and the steps of the receive loop. The loop
is entered only when the configuration was read and the socket was bound. -/
def main (Unmarshal : Unmarshaler) (fs : FileSystem)
    (ListenUDP : UDPAddr → Except String UDPConn) (reads : List ReadResult) :
    Startup × List Step :=
  match mainStart Unmarshal fs ListenUDP with
  | .serving config conn out => (.serving config conn out, mainLoop config reads)
  | .exit out code => (.exit out code, [])
  | .panic err => (.panic err, [])

/-- The transport read of an incoming datagram with payload `P` into a buffer
of `maxbuf` bytes: `min(len(P), maxbuf)` bytes of `P` are copied and their
number is returned with a nil error; what exceeds the buffer is dropped. -/
def recvDatagram (maxbuf : Nat) (P : List Nat) : ReadResult :=
  { data := P.take maxbuf, rlen := (min P.length maxbuf : Nat), err := none }

/-! ## Auxiliary definitions for the proofs and the examples -/

/-- The part of `DecodeRuneInString` after the lookup in `first`, for a lead byte
`s0` of a multi-byte encoding of size `sz` whose second byte has to be in
`lo..hi`; `rest` is the string after the lead byte. Used in the proofs only. -/
def decodeMulti (s0 sz lo hi : Nat) (rest : List Nat) : Nat × Nat :=
  if rest.length + 1 < sz then (RuneError, 1)
  else if rest.getD 0 0 < lo ∨ hi < rest.getD 0 0 then (RuneError, 1)
  else if sz ≤ 2 then (((s0 &&& mask2) <<< 6) ||| (rest.getD 0 0 &&& maskx), 2)
  else if rest.getD 1 0 < locb ∨ hicb < rest.getD 1 0 then (RuneError, 1)
  else if sz ≤ 3 then
    (((s0 &&& mask3) <<< 12) ||| ((rest.getD 0 0 &&& maskx) <<< 6) ||| (rest.getD 1 0 &&& maskx), 3)
  else if rest.getD 2 0 < locb ∨ hicb < rest.getD 2 0 then (RuneError, 1)
  else (((s0 &&& mask4) <<< 18) ||| ((rest.getD 0 0 &&& maskx) <<< 12)
          ||| ((rest.getD 1 0 &&& maskx) <<< 6) ||| (rest.getD 2 0 &&& maskx), 4)

/-- The runes that `for _, r := range s` yields, by at most `fuel` decoding
steps. -/
def runesLoop : Nat → List Nat → List Nat
  | 0, _ => []
  | fuel + 1, s =>
    if s.length = 0 then []
    else
      let d := DecodeRuneInString s
      d.1 :: runesLoop fuel (s.drop d.2)

/-- The runes of the string `s`, as `for _, r := range s` yields them: an
invalid byte counts as the rune `RuneError`. -/
def runes (s : List Nat) : List Nat :=
  runesLoop s.length s

/-- The configuration of the concrete scenario of the specification: debug 10,
port 5514, maxbuf 2048, destinations 127.0.0.1:8514 and [::1]:7514. -/
def scenarioConfig : Configuration :=
  { Debug := 10, Port := 5514, MaxBuf := 2048,
    Dests := [⟨ascii "127.0.0.1", 8514⟩, ⟨ascii "::1", 7514⟩] }

/-- A connection listening on [::]:5514. -/
def scenarioConn : UDPConn :=
  ⟨⟨some (List.replicate 16 0), 5514⟩⟩

/-- The value of `data` in the loop body: `strings.TrimSpace` of the first
`rlen` bytes of the buffer after the read. -/
def payloadOf (config : Configuration) (rd : ReadResult) : List Nat :=
  TrimSpace ((bufferAfterRead config.MaxBuf.toNat rd.data).take rd.rlen.toNat)

/-- A configuration with a destination entry whose host is not an IP literal
and whose port is outside 1-65535. -/
def malformedConfig : Configuration :=
  { Debug := 0, Port := 5514, MaxBuf := 2048, Dests := [⟨ascii "not-an-ip", 70000⟩] }

/-- A configuration with a buffer of 4 bytes and one destination. -/
def smallBufConfig : Configuration :=
  { Debug := 10, Port := 5514, MaxBuf := 4, Dests := [⟨ascii "127.0.0.1", 8514⟩] }

/-- A configuration without destinations. -/
def noDestConfig : Configuration :=
  { Debug := 10, Port := 5514, MaxBuf := 2048, Dests := [] }

/-- A run of `json.Unmarshal` that decodes the data to the configuration `c`
and returns a nil error. -/
def decodeTo (c : Configuration) : Unmarshaler :=
  fun _ _ => (c, none)

/-- A run of `json.Unmarshal` on data that is not valid JSON: the value is
left as it was and an error is returned. -/
def decodeFails : Unmarshaler :=
  fun _ c => (c, some "invalid character 'o' in literal null (expecting 'u')")

/-! ## Lemmas -/

theorem first_as (b : Nat) (h : b < 0x80) : first b = 0xF0 := by
  unfold first; simp [h, as_]

theorem first_xx (b : Nat) (h1 : 0x80 ≤ b) (h : b < 0xC2 ∨ 0xF5 ≤ b) : first b = 0xF1 := by
  unfold first xx; split_ifs <;> first | rfl | omega

theorem first_s1 (b : Nat) (h1 : 0xC2 ≤ b) (h : b < 0xE0) : first b = 0x02 := by
  unfold first s1; split_ifs <;> first | rfl | omega

theorem first_s2 : first 0xE0 = 0x13 := by decide

theorem first_s3 (b : Nat) (h1 : 0xE1 ≤ b) (h : b < 0xF0) (h2 : b ≠ 0xED) : first b = 0x03 := by
  unfold first s3; split_ifs <;> first | rfl | omega

theorem first_s4 : first 0xED = 0x23 := by decide

theorem first_s5 : first 0xF0 = 0x34 := by decide

theorem first_s6 (b : Nat) (h1 : 0xF1 ≤ b) (h : b < 0xF4) : first b = 0x04 := by
  unfold first s6; split_ifs <;> first | rfl | omega

theorem first_s7 : first 0xF4 = 0x44 := by decide

/-- The decoder in terms of the value of `first`. -/
theorem decode_of_first (s0 : Nat) (rest : List Nat) (x sz lo hi : Nat)
    (hx : first s0 = x) (h1 : ¬ x ≥ as_) (h2 : x &&& 7 = sz) (h3 : acceptRanges (x >>> 4) = (lo, hi)) :
    DecodeRuneInString (s0 :: rest) = decodeMulti s0 sz lo hi rest := by
  unfold DecodeRuneInString decodeMulti
  simp only [List.length_cons, List.getD_cons_zero, List.getD_cons_succ, hx, h1, h2, h3]
  simp

theorem decode_nil : DecodeRuneInString [] = (RuneError, 0) := by
  simp [DecodeRuneInString]

theorem decode_ascii (c : Nat) (t : List Nat) (h : c < 0x80) :
    DecodeRuneInString (c :: t) = (c, 1) := by
  simp [DecodeRuneInString, first, h, as_]

theorem decode_invalid (c : Nat) (t : List Nat) (h1 : 0x80 ≤ c) (h : c < 0xC2 ∨ 0xF5 ≤ c) :
    DecodeRuneInString (c :: t) = (RuneError, 1) := by
  unfold DecodeRuneInString
  simp [first_xx c h1 h, as_]

/-- For a lead byte of a multi-byte encoding the decoder checks a size and a
range that depend on the lead byte only. -/
theorem decode_lead (c : Nat) (h1 : 0xC2 ≤ c) (h2 : c < 0xF5) :
    ∃ sz lo hi, 2 ≤ sz ∧ sz ≤ 4 ∧ 0x80 ≤ lo ∧ hi ≤ 0xBF ∧
      ∀ t, DecodeRuneInString (c :: t) = decodeMulti c sz lo hi t := by
  by_cases a1 : c < 0xE0
  · exact ⟨2, 0x80, 0xBF, by omega, by omega, by omega, by omega, fun t =>
      decode_of_first c t _ _ _ _ (first_s1 c h1 a1) (by decide) (by decide) (by decide)⟩
  by_cases a2 : c = 0xE0
  · subst a2
    exact ⟨3, 0xA0, 0xBF, by omega, by omega, by omega, by omega, fun t =>
      decode_of_first _ t _ _ _ _ first_s2 (by decide) (by decide) (by decide)⟩
  by_cases a3 : c = 0xED
  · subst a3
    exact ⟨3, 0x80, 0x9F, by omega, by omega, by omega, by omega, fun t =>
      decode_of_first _ t _ _ _ _ first_s4 (by decide) (by decide) (by decide)⟩
  by_cases a4 : c < 0xF0
  · exact ⟨3, 0x80, 0xBF, by omega, by omega, by omega, by omega, fun t =>
      decode_of_first c t _ _ _ _ (first_s3 c (by omega) a4 a3) (by decide) (by decide) (by decide)⟩
  by_cases a5 : c = 0xF0
  · subst a5
    exact ⟨4, 0x90, 0xBF, by omega, by omega, by omega, by omega, fun t =>
      decode_of_first _ t _ _ _ _ first_s5 (by decide) (by decide) (by decide)⟩
  by_cases a6 : c = 0xF4
  · subst a6
    exact ⟨4, 0x80, 0x8F, by omega, by omega, by omega, by omega, fun t =>
      decode_of_first _ t _ _ _ _ first_s7 (by decide) (by decide) (by decide)⟩
  · exact ⟨4, 0x80, 0xBF, by omega, by omega, by omega, by omega, fun t =>
      decode_of_first c t _ _ _ _ (first_s6 c (by omega) (by omega)) (by decide) (by decide) (by decide)⟩

/-- The three kinds of first byte. -/
theorem decode_kinds (c : Nat) :
    (c < 0x80 ∧ ∀ t, DecodeRuneInString (c :: t) = (c, 1)) ∨
    ((0x80 ≤ c ∧ (c < 0xC2 ∨ 0xF5 ≤ c)) ∧ ∀ t, DecodeRuneInString (c :: t) = (RuneError, 1)) ∨
    ((0xC2 ≤ c ∧ c < 0xF5) ∧ ∃ sz lo hi, 2 ≤ sz ∧ sz ≤ 4 ∧ 0x80 ≤ lo ∧ hi ≤ 0xBF ∧
      ∀ t, DecodeRuneInString (c :: t) = decodeMulti c sz lo hi t) := by
  by_cases h : c < 0x80
  · exact Or.inl ⟨h, fun t => decode_ascii c t h⟩
  by_cases h' : c < 0xC2 ∨ 0xF5 ≤ c
  · exact Or.inr (Or.inl ⟨⟨by omega, h'⟩, fun t => decode_invalid c t (by omega) h'⟩)
  · exact Or.inr (Or.inr ⟨⟨by omega, by omega⟩, decode_lead c (by omega) (by omega)⟩)

theorem decodeMulti_width (c sz lo hi : Nat) (t : List Nat) (h2 : 2 ≤ sz) (h4 : sz ≤ 4) :
    1 ≤ (decodeMulti c sz lo hi t).2 ∧ (decodeMulti c sz lo hi t).2 ≤ t.length + 1 ∧
    ((decodeMulti c sz lo hi t).2 = 1 → (decodeMulti c sz lo hi t).1 = RuneError) := by
  unfold decodeMulti
  split_ifs <;> simp <;> omega

theorem decode_width_pos (s : List Nat) (h : s ≠ []) : 1 ≤ (DecodeRuneInString s).2 := by
  cases s with
  | nil => exact absurd rfl h
  | cons c t =>
    rcases decode_kinds c with ⟨_, h⟩ | ⟨_, h⟩ | ⟨_, sz, lo, hi, h2, h4, _, _, h⟩
    · simp [h]
    · simp [h]
    · rw [h]; exact (decodeMulti_width c sz lo hi t h2 h4).1

theorem decode_width_le (s : List Nat) : (DecodeRuneInString s).2 ≤ s.length := by
  cases s with
  | nil => simp [decode_nil]
  | cons c t =>
    rcases decode_kinds c with ⟨_, h⟩ | ⟨_, h⟩ | ⟨_, sz, lo, hi, h2, h4, _, _, h⟩
    · simp [h]
    · simp [h]
    · rw [h]; exact (decodeMulti_width c sz lo hi t h2 h4).2.1

theorem getD_take (t : List Nat) (m i : Nat) (h : i < m) : (t.take m).getD i 0 = t.getD i 0 := by
  simp [List.getD_eq_getElem?_getD, List.getElem?_take, h]

theorem getD_append_left (t u : List Nat) (i : Nat) (h : i < t.length) :
    (t ++ u).getD i 0 = t.getD i 0 := by
  simp [List.getD_eq_getElem?_getD, List.getElem?_append_left h]

theorem decodeMulti_take (c sz lo hi : Nat) (t : List Nat) (m : Nat) (h2 : 2 ≤ sz) (h4 : sz ≤ 4) :
    (decodeMulti c sz lo hi (t.take m)).1 = (decodeMulti c sz lo hi t).1 ∨
    (decodeMulti c sz lo hi (t.take m)).1 = RuneError := by
  by_cases hm : (t.take m).length + 1 < sz
  · right; unfold decodeMulti; rw [if_pos hm]
  · left
    have hlen : (t.take m).length = min m t.length := List.length_take m t
    have hm' : sz ≤ min m t.length + 1 := by omega
    have hl : ¬ (t.length + 1 < sz) := by omega
    have g0 : (t.take m).getD 0 0 = t.getD 0 0 := getD_take t m 0 (by omega)
    unfold decodeMulti
    rw [if_neg hm, if_neg hl, g0]
    by_cases a : sz ≤ 2
    · simp [a]
    · have g1 : (t.take m).getD 1 0 = t.getD 1 0 := getD_take t m 1 (by omega)
      rw [g1]
      by_cases b : sz ≤ 3
      · simp [a, b]
      · have g2 : (t.take m).getD 2 0 = t.getD 2 0 := getD_take t m 2 (by omega)
        rw [g2]

theorem decodeMulti_append (c sz lo hi : Nat) (t u : List Nat) (h2 : 2 ≤ sz) (h4 : sz ≤ 4)
    (hw : 2 ≤ (decodeMulti c sz lo hi t).2) :
    decodeMulti c sz lo hi (t ++ u) = decodeMulti c sz lo hi t := by
  by_cases hm : t.length + 1 < sz
  · unfold decodeMulti at hw; rw [if_pos hm] at hw; simp at hw
  · have hl : ¬ ((t ++ u).length + 1 < sz) := by simp; omega
    have g0 : (t ++ u).getD 0 0 = t.getD 0 0 := getD_append_left t u 0 (by omega)
    unfold decodeMulti
    rw [if_neg hm, if_neg hl, g0]
    by_cases a : sz ≤ 2
    · simp [a]
    · have g1 : (t ++ u).getD 1 0 = t.getD 1 0 := getD_append_left t u 1 (by omega)
      rw [g1]
      by_cases b : sz ≤ 3
      · simp [a, b]
      · have g2 : (t ++ u).getD 2 0 = t.getD 2 0 := getD_append_left t u 2 (by omega)
        rw [g2]

theorem decodeMulti_second (c sz lo hi : Nat) (t : List Nat) (h2 : 2 ≤ sz) (hlo : 0x80 ≤ lo)
    (hhi : hi ≤ 0xBF) (hw : 2 ≤ (decodeMulti c sz lo hi t).2) :
    1 ≤ t.length ∧ 0x80 ≤ t.getD 0 0 ∧ t.getD 0 0 ≤ 0xBF := by
  unfold decodeMulti at hw
  split_ifs at hw <;> simp at hw <;> omega

theorem decode_take (s : List Nat) (n : Nat) (hn : 0 < n) :
    (DecodeRuneInString (s.take n)).1 = (DecodeRuneInString s).1 ∨
    (DecodeRuneInString (s.take n)).1 = RuneError := by
  cases s with
  | nil => simp
  | cons c t =>
    obtain ⟨m, rfl⟩ : ∃ m, n = m + 1 := ⟨n - 1, by omega⟩
    rw [List.take_succ_cons]
    rcases decode_kinds c with ⟨_, h⟩ | ⟨_, h⟩ | ⟨_, sz, lo, hi, h2, h4, _, _, h⟩
    · simp [h]
    · simp [h]
    · rw [h, h]; exact decodeMulti_take c sz lo hi t m h2 h4

theorem decode_append (t u : List Nat) (hw : 2 ≤ (DecodeRuneInString t).2) :
    DecodeRuneInString (t ++ u) = DecodeRuneInString t := by
  cases t with
  | nil => simp [decode_nil] at hw
  | cons c t =>
    rw [List.cons_append]
    rcases decode_kinds c with ⟨_, h⟩ | ⟨_, h⟩ | ⟨_, sz, lo, hi, h2, h4, _, _, h⟩
    · simp [h]
    · simp [h]
    · rw [h] at hw; rw [h, h]; exact decodeMulti_append c sz lo hi t u h2 h4 hw

/-- A decoded width of at least 2 means a lead byte followed by a continuation
byte. -/
theorem decode_wide (s : List Nat) (hw : 2 ≤ (DecodeRuneInString s).2) :
    2 ≤ s.length ∧ 0xC2 ≤ s.getD 0 0 ∧ 0x80 ≤ s.getD 1 0 ∧ s.getD 1 0 ≤ 0xBF := by
  cases s with
  | nil => simp [decode_nil] at hw
  | cons c t =>
    rcases decode_kinds c with ⟨_, h⟩ | ⟨_, h⟩ | ⟨hc, sz, lo, hi, h2, h4, hlo, hhi, h⟩
    · simp [h] at hw
    · simp [h] at hw
    · rw [h] at hw
      have := decodeMulti_second c sz lo hi t h2 hlo hhi hw
      simp only [List.length_cons, List.getD_cons_zero, List.getD_cons_succ]
      omega

/-- A rune other than RuneError does not start at a continuation byte. -/
theorem decode_start (s : List Nat) (h : (DecodeRuneInString s).1 ≠ RuneError) :
    s ≠ [] ∧ ¬ (0x80 ≤ s.getD 0 0 ∧ s.getD 0 0 ≤ 0xBF) := by
  cases s with
  | nil => simp [decode_nil] at h
  | cons c t =>
    rcases decode_kinds c with ⟨hc, _⟩ | ⟨_, h'⟩ | ⟨hc, _⟩
    · simp; omega
    · simp [h'] at h
    · simp; omega

theorem scanStart_le (s : List Nat) (lim fuel k : Nat) : scanStart s lim fuel k ≤ k := by
  induction fuel generalizing k with
  | zero => simp [scanStart]
  | succ n ih =>
    unfold scanStart
    split_ifs
    · exact le_refl _
    · exact le_trans (ih (k - 1)) (Nat.sub_le k 1)
    · exact le_refl _

theorem drop_length_pred (t : List Nat) (h : t ≠ []) :
    t.drop (t.length - 1) = [t.getD (t.length - 1) 0] := by
  have hl : 0 < t.length := List.length_pos.mpr h
  have h1 : t.length - 1 < t.length := by omega
  rw [List.drop_eq_getElem_cons h1]
  have : t.length - 1 + 1 = t.length := by omega
  simp [this, List.getD_eq_getElem?_getD, List.getElem?_eq_getElem h1]

/-- The last rune is either reported as an invalid byte or it is the rune
decoded at the place where it starts. -/
theorem decodeLast_spec (t : List Nat) (h : t ≠ []) :
    1 ≤ (DecodeLastRuneInString t).2 ∧ (DecodeLastRuneInString t).2 ≤ t.length ∧
    (DecodeLastRuneInString t = (RuneError, 1) ∨
      DecodeRuneInString (t.drop (t.length - (DecodeLastRuneInString t).2))
        = DecodeLastRuneInString t) := by
  have hl : 0 < t.length := List.length_pos.mpr h
  unfold DecodeLastRuneInString
  simp only [Nat.ne_of_gt hl, if_false]
  by_cases ha : t.getD (t.length - 1) 0 < RuneSelf
  · simp only [ha, if_true]
    refine ⟨le_refl _, hl, Or.inr ?_⟩
    rw [drop_length_pred t h]
    exact decode_ascii _ _ ha
  · simp only [ha, if_false]
    set k := scanStart t (t.length - UTFMax) UTFMax (t.length - 1) with hk
    have hkle : k ≤ t.length - 1 := scanStart_le _ _ _ _
    have hX : (t.drop (k - 1)).take (t.length - (k - 1)) = t.drop (k - 1) := by
      apply List.take_of_length_le; simp
    rw [hX]
    by_cases hs : k - 1 + (DecodeRuneInString (t.drop (k - 1))).2 ≠ t.length
    · rw [if_pos hs]
      exact ⟨le_refl _, hl, Or.inl rfl⟩
    · rw [if_neg hs]
      have hne : t.drop (k - 1) ≠ [] := by
        intro h0
        have := congrArg List.length h0
        simp at this; omega
      have hp := decode_width_pos _ hne
      refine ⟨hp, by omega, Or.inr ?_⟩
      have : t.length - (DecodeRuneInString (t.drop (k - 1))).2 = k - 1 := by omega
      rw [this]

theorem getD_drop (s : List Nat) (j i : Nat) : (s.drop j).getD i 0 = s.getD (j + i) 0 := by
  simp [List.getD_eq_getElem?_getD, List.getElem?_drop]

theorem getD_take_drop (s : List Nat) (e j : Nat) (h : j < e) :
    ((s.take e).drop j).getD 0 0 = s.getD j 0 := by
  rw [getD_drop, Nat.add_zero, getD_take s e j h]

/-- The loop of `lastIndexFunc` stops at the end `e` of a rune that fails `f`,
and no continuation byte follows at `e`. -/
theorem lastIndexLoop_spec (s : List Nat) (f : Nat → Bool) (hf : f RuneError = false) :
    ∀ fuel i, i ≤ fuel → i ≤ s.length → ¬ (0x80 ≤ s.getD i 0 ∧ s.getD i 0 ≤ 0xBF) →
      lastIndexFuncLoop s f false fuel i = -1 ∨
      ∃ e, 0 < e ∧ e ≤ i ∧ ¬ (0x80 ≤ s.getD e 0 ∧ s.getD e 0 ≤ 0xBF) ∧
        f (DecodeLastRuneInString (s.take e)).1 = false ∧
        lastIndexFuncLoop s f false fuel i
          = ((e - (DecodeLastRuneInString (s.take e)).2 : Nat) : Int) := by
  intro fuel
  induction fuel with
  | zero =>
    intro i _ _ _
    left; simp [lastIndexFuncLoop]
  | succ n ih =>
    intro i hi hlen hnc
    unfold lastIndexFuncLoop
    by_cases h0 : i > 0
    · simp only [h0, if_true]
      have hne : s.take i ≠ [] := by
        intro h
        have := congrArg List.length h
        rw [List.length_take, Nat.min_eq_left hlen] at this
        simp at this; omega
      have hlt : (s.take i).length = i := by rw [List.length_take]; exact Nat.min_eq_left hlen
      obtain ⟨hw1, hw2, hd⟩ := decodeLast_spec (s.take i) hne
      rw [hlt] at hw2 hd
      by_cases hfr : f (DecodeLastRuneInString (s.take i)).1 = false
      · right
        refine ⟨i, h0, le_refl _, hnc, hfr, ?_⟩
        simp [hfr]
      · have hft : f (DecodeLastRuneInString (s.take i)).1 = true := by
          cases hq : f (DecodeLastRuneInString (s.take i)).1
          · exact absurd hq hfr
          · rfl
        simp only [hft]
        have hnc' : ¬ (0x80 ≤ s.getD (i - (DecodeLastRuneInString (s.take i)).2) 0 ∧
            s.getD (i - (DecodeLastRuneInString (s.take i)).2) 0 ≤ 0xBF) := by
          rcases hd with hd | hd
          · rw [hd] at hft; simp [hf] at hft
          · have hr : (DecodeRuneInString ((s.take i).drop
                (i - (DecodeLastRuneInString (s.take i)).2))).1 ≠ RuneError := by
              rw [hd]; intro h; rw [h, hf] at hft; exact Bool.noConfusion hft
            have := (decode_start _ hr).2
            rwa [getD_take_drop s i _ (by omega)] at this
        rcases ih (i - (DecodeLastRuneInString (s.take i)).2) (by omega) (by omega) hnc' with
          h | ⟨e, he0, hei, hence, hfe, hres⟩
        · left; simpa using h
        · right
          exact ⟨e, he0, by omega, hence, hfe, by simpa using hres⟩
    · left; simp [h0]

theorem drop_eq_take_drop_append (s : List Nat) (j e : Nat) (hj : j ≤ e) (he : e ≤ s.length) :
    s.drop j = (s.take e).drop j ++ s.drop e := by
  have h1 : j ≤ (s.take e).length := by rw [List.length_take, Nat.min_eq_left he]; exact hj
  rw [← List.drop_append_of_le_length h1, List.take_append_drop]

/-- The width that `TrimRightFunc` adds to the index found by `lastIndexFunc`
leads back to the end of the rune found. -/
theorem trimRight_width (s : List Nat) (e : Nat) (he0 : 0 < e) (he : e ≤ s.length)
    (hnc : ¬ (0x80 ≤ s.getD e 0 ∧ s.getD e 0 ≤ 0xBF)) :
    (s.getD (e - (DecodeLastRuneInString (s.take e)).2) 0 ≥ RuneSelf →
      e - (DecodeLastRuneInString (s.take e)).2
        + (DecodeRuneInString (s.drop (e - (DecodeLastRuneInString (s.take e)).2))).2 = e) ∧
    (¬ s.getD (e - (DecodeLastRuneInString (s.take e)).2) 0 ≥ RuneSelf →
      e - (DecodeLastRuneInString (s.take e)).2 + 1 = e) := by
  have hlt : (s.take e).length = e := by rw [List.length_take]; exact Nat.min_eq_left he
  have hne : s.take e ≠ [] := by
    intro h
    have := congrArg List.length h
    rw [hlt] at this
    simp at this; omega
  obtain ⟨hw1, hw2, hd⟩ := decodeLast_spec (s.take e) hne
  rw [hlt] at hw2 hd
  generalize hdd : DecodeLastRuneInString (s.take e) = d at hw1 hw2 hd ⊢
  by_cases hwide : 2 ≤ d.2
  · have hX : DecodeRuneInString ((s.take e).drop (e - d.2)) = d := by
      rcases hd with hd | hd
      · rw [hd] at hwide; simp at hwide
      · exact hd
    have hw : 2 ≤ (DecodeRuneInString ((s.take e).drop (e - d.2))).2 := by rw [hX]; exact hwide
    have hwd := decode_wide _ hw
    rw [getD_take_drop s e _ (by omega)] at hwd
    constructor
    · intro _
      rw [drop_eq_take_drop_append s (e - d.2) e (by omega) he, decode_append _ _ hw, hX]
      omega
    · intro h
      unfold RuneSelf at h
      omega
  · have h1 : d.2 = 1 := by omega
    constructor
    · intro h
      have hne' : s.drop (e - d.2) ≠ [] := by
        intro h0
        have := congrArg List.length h0
        simp at this; omega
      have hp := decode_width_pos _ hne'
      by_cases hw : 2 ≤ (DecodeRuneInString (s.drop (e - d.2))).2
      · have hwd := decode_wide _ hw
        rw [getD_drop s (e - d.2) 1] at hwd
        have : e - d.2 + 1 = e := by omega
        rw [this] at hwd
        exact absurd ⟨hwd.2.2.1, hwd.2.2.2⟩ hnc
      · omega
    · intro _; omega

theorem trimRight_of_none (s : List Nat) (f : Nat → Bool)
    (h : lastIndexFunc s f false = -1) : TrimRightFunc s f = [] := by
  unfold TrimRightFunc
  simp [h]

theorem trimRight_of_index (s : List Nat) (f : Nat → Bool) (e : Nat) (he0 : 0 < e)
    (he : e ≤ s.length) (hnc : ¬ (0x80 ≤ s.getD e 0 ∧ s.getD e 0 ≤ 0xBF))
    (h : lastIndexFunc s f false = ((e - (DecodeLastRuneInString (s.take e)).2 : Nat) : Int)) :
    TrimRightFunc s f = s.take e := by
  obtain ⟨hA, hB⟩ := trimRight_width s e he0 he hnc
  unfold TrimRightFunc
  simp only [h, Int.toNat_ofNat]
  by_cases hc : s.getD (e - (DecodeLastRuneInString (s.take e)).2) 0 ≥ RuneSelf
  · have hc' : ((e - (DecodeLastRuneInString (s.take e)).2 : Nat) : Int) ≥ 0 ∧
        s.getD (e - (DecodeLastRuneInString (s.take e)).2) 0 ≥ RuneSelf := ⟨by omega, hc⟩
    rw [if_pos hc']
    have := hA hc
    congr 1
  · have hc' : ¬ (((e - (DecodeLastRuneInString (s.take e)).2 : Nat) : Int) ≥ 0 ∧
        s.getD (e - (DecodeLastRuneInString (s.take e)).2) 0 ≥ RuneSelf) := fun h => hc h.2
    rw [if_neg hc']
    have := hB hc
    congr 1

/-- What `TrimRightFunc` returns: an initial part of `s` that is empty or ends
with a rune that fails `f`. -/
theorem trimRight_spec (s : List Nat) (f : Nat → Bool) (hf : f RuneError = false) :
    ∃ e, e ≤ s.length ∧ TrimRightFunc s f = s.take e ∧
      (e = 0 ∨ f (DecodeLastRuneInString (s.take e)).1 = false) := by
  have hnc : ¬ (0x80 ≤ s.getD s.length 0 ∧ s.getD s.length 0 ≤ 0xBF) := by
    simp [List.getD_eq_getElem?_getD]
  rcases lastIndexLoop_spec s f hf s.length s.length (le_refl _) (le_refl _) hnc with
    h | ⟨e, he0, he, hnce, hfe, hres⟩
  · exact ⟨0, Nat.zero_le _, by rw [trimRight_of_none s f h]; simp, Or.inl rfl⟩
  · exact ⟨e, he, trimRight_of_index s f e he0 he hnce hres, Or.inr hfe⟩

/-- `TrimRightFunc` returns its argument when the last rune fails `f`. -/
theorem trimRight_id (s : List Nat) (f : Nat → Bool) (hs : s ≠ [])
    (hl : f (DecodeLastRuneInString s).1 = false) : TrimRightFunc s f = s := by
  have hpos : 0 < s.length := List.length_pos.mpr hs
  have hnc : ¬ (0x80 ≤ s.getD s.length 0 ∧ s.getD s.length 0 ≤ 0xBF) := by
    simp [List.getD_eq_getElem?_getD]
  have hidx : lastIndexFunc s f false
      = ((s.length - (DecodeLastRuneInString (s.take s.length)).2 : Nat) : Int) := by
    unfold lastIndexFunc
    obtain ⟨n, hn⟩ : ∃ n, s.length = n + 1 := ⟨s.length - 1, by omega⟩
    rw [List.take_length]
    conv_lhs => rw [hn]
    unfold lastIndexFuncLoop
    rw [← hn]
    simp [hpos, hl]
  have := trimRight_of_index s f s.length hpos (le_refl _) hnc hidx
  rwa [List.take_length] at this

theorem trimRight_nil (f : Nat → Bool) : TrimRightFunc [] f = [] := by
  simp [TrimRightFunc]

/-- The loop of `indexFunc` stops at the first rune that fails `f`. -/
theorem indexLoop_spec (f : Nat → Bool) :
    ∀ fuel (s : List Nat) (i : Nat), s.length ≤ fuel →
      indexFuncLoop f false fuel s i = -1 ∨
      ∃ k, k < s.length ∧ f (DecodeRuneInString (s.drop k)).1 = false ∧
        indexFuncLoop f false fuel s i = ((i + k : Nat) : Int) := by
  intro fuel
  induction fuel with
  | zero => intro s i _; left; simp [indexFuncLoop]
  | succ n ih =>
    intro s i hlen
    unfold indexFuncLoop
    by_cases h0 : s.length = 0
    · left; simp [h0]
    · simp only [h0, if_false]
      have hne : s ≠ [] := fun h => h0 (by simp [h])
      have hp := decode_width_pos s hne
      by_cases hfr : f (DecodeRuneInString s).1 = false
      · right
        exact ⟨0, by omega, by simpa using hfr, by simp [hfr]⟩
      · have hft : f (DecodeRuneInString s).1 = true := by
          cases hq : f (DecodeRuneInString s).1
          · exact absurd hq hfr
          · rfl
        simp only [hft]
        have hl' : (s.drop (DecodeRuneInString s).2).length ≤ n := by
          rw [List.length_drop]; omega
        rcases ih (s.drop (DecodeRuneInString s).2) (i + (DecodeRuneInString s).2) hl' with
          h | ⟨k, hk, hfk, hres⟩
        · left; simpa using h
        · right
          rw [List.length_drop] at hk
          refine ⟨(DecodeRuneInString s).2 + k, by omega, ?_, ?_⟩
          · rw [← List.drop_drop]; exact hfk
          · have : i + ((DecodeRuneInString s).2 + k) = i + (DecodeRuneInString s).2 + k := by
              omega
            rw [this]
            simpa using hres

/-- What `TrimLeftFunc` returns: a final part of `s` that is empty or starts
with a rune that fails `f`. -/
theorem trimLeft_spec (s : List Nat) (f : Nat → Bool) :
    ∃ k, k ≤ s.length ∧ TrimLeftFunc s f = s.drop k ∧
      (TrimLeftFunc s f = [] ∨ f (DecodeRuneInString (TrimLeftFunc s f)).1 = false) := by
  rcases indexLoop_spec f s.length s 0 (le_refl _) with h | ⟨k, hk, hfk, hres⟩
  · have : TrimLeftFunc s f = [] := by
      unfold TrimLeftFunc indexFunc
      simp [h]
    exact ⟨s.length, le_refl _, by rw [this]; simp, Or.inl this⟩
  · have : TrimLeftFunc s f = s.drop k := by
      unfold TrimLeftFunc indexFunc
      rw [hres]
      simp only [Nat.zero_add]
      have hne : ((k : Nat) : Int) ≠ -1 := by omega
      rw [if_neg hne, Int.toNat_ofNat]
    exact ⟨k, by omega, this, Or.inr (by rw [this]; exact hfk)⟩

/-- `TrimLeftFunc` returns its argument when the first rune fails `f`. -/
theorem trimLeft_id (s : List Nat) (f : Nat → Bool) (hs : s ≠ [])
    (hl : f (DecodeRuneInString s).1 = false) : TrimLeftFunc s f = s := by
  have hpos : 0 < s.length := List.length_pos.mpr hs
  obtain ⟨n, hn⟩ : ∃ n, s.length = n + 1 := ⟨s.length - 1, by omega⟩
  unfold TrimLeftFunc indexFunc
  rw [hn]
  unfold indexFuncLoop
  simp [hn, hl]

theorem isSpace_runeError : IsSpace RuneError = false := by decide

theorem isSpace_ascii (c : Nat) (h : c < 0x80) : IsSpace c = true ↔ asciiSpace c = 1 := by
  unfold IsSpace asciiSpace MaxLatin1
  have h1 : c ≤ 0xFF := by omega
  simp only [h1, if_true]
  constructor
  · intro hs
    simp at hs
    have : c = 0x09 ∨ c = 0x0A ∨ c = 0x0B ∨ c = 0x0C ∨ c = 0x0D ∨ c = 0x20 := by omega
    simp [this]
  · intro ha
    split_ifs at ha with hc
    simp
    omega

theorem asciiSpace_zero_or_one (c : Nat) : asciiSpace c = 0 ∨ asciiSpace c = 1 := by
  unfold asciiSpace; split_ifs <;> simp

theorem isSpace_ascii_false (c : Nat) (h : c < 0x80) : IsSpace c = false ↔ asciiSpace c = 0 := by
  have := isSpace_ascii c h
  rcases asciiSpace_zero_or_one c with h0 | h1
  · simp only [h0, iff_true]
    cases hq : IsSpace c
    · rfl
    · rw [hq] at this; simp [h0] at this
  · simp only [h1]
    simp [this.mpr h1]

/-- No rune is found by `indexFunc` when every rune satisfies `f`. -/
theorem indexLoop_all (f : Nat → Bool) :
    ∀ fuel (s : List Nat) (i : Nat), (∀ r ∈ runesLoop fuel s, f r = true) →
      indexFuncLoop f false fuel s i = -1 := by
  intro fuel
  induction fuel with
  | zero => intro s i _; simp [indexFuncLoop]
  | succ n ih =>
    intro s i h
    unfold indexFuncLoop
    unfold runesLoop at h
    by_cases h0 : s.length = 0
    · simp [h0]
    · simp only [h0, if_false] at h ⊢
      have h1 := h _ (List.mem_cons_self _ _)
      simp only [h1]
      have := ih (s.drop (DecodeRuneInString s).2) (i + (DecodeRuneInString s).2)
        (fun r hr => h r (List.mem_cons_of_mem _ hr))
      simpa using this

theorem trimLeft_all (s : List Nat) (f : Nat → Bool) (h : ∀ r ∈ runes s, f r = true) :
    TrimLeftFunc s f = [] := by
  unfold TrimLeftFunc indexFunc
  rw [indexLoop_all f s.length s 0 h]
  simp

/-- The result of `TrimFunc` is a contiguous part of its argument. -/
theorem trimFunc_part (s : List Nat) (f : Nat → Bool) (hf : f RuneError = false) :
    ∃ k e, TrimFunc s f = (s.drop k).take e := by
  obtain ⟨k, _, hk, _⟩ := trimLeft_spec s f
  obtain ⟨e, _, he, _⟩ := trimRight_spec (TrimLeftFunc s f) f hf
  exact ⟨k, e, by unfold TrimFunc; rw [he, hk]⟩

theorem trimFunc_first (s : List Nat) (f : Nat → Bool) (hf : f RuneError = false)
    (hne : TrimFunc s f ≠ []) : f (DecodeRuneInString (TrimFunc s f)).1 = false := by
  obtain ⟨k, _, hk, hfirst⟩ := trimLeft_spec s f
  obtain ⟨e, _, he, _⟩ := trimRight_spec (TrimLeftFunc s f) f hf
  unfold TrimFunc at hne ⊢
  rw [he] at hne ⊢
  have he0 : 0 < e := by
    rcases Nat.eq_zero_or_pos e with h | h
    · rw [h] at hne; simp at hne
    · exact h
  rcases hfirst with h | h
  · rw [h] at hne; simp at hne
  · rcases decode_take (TrimLeftFunc s f) e he0 with h' | h'
    · rw [h']; exact h
    · rw [h']; exact hf

theorem trimRight_last (s : List Nat) (f : Nat → Bool) (hf : f RuneError = false)
    (hne : TrimRightFunc s f ≠ []) : f (DecodeLastRuneInString (TrimRightFunc s f)).1 = false := by
  obtain ⟨e, _, he, hlast⟩ := trimRight_spec s f hf
  rw [he] at hne ⊢
  rcases hlast with h | h
  · rw [h] at hne; simp at hne
  · exact h

theorem trimFunc_last (s : List Nat) (f : Nat → Bool) (hf : f RuneError = false)
    (hne : TrimFunc s f ≠ []) : f (DecodeLastRuneInString (TrimFunc s f)).1 = false :=
  trimRight_last (TrimLeftFunc s f) f hf hne

theorem trimStart_nonASCII (s : List Nat) : ∀ start st, trimStart s start = .nonASCII st →
    ∃ k, st = start + k ∧ k ≤ s.length := by
  induction s with
  | nil => intro start st h; simp [trimStart] at h
  | cons c rest ih =>
    intro start st h
    unfold trimStart at h
    split_ifs at h with h1 h2
    · injection h with h; exact ⟨0, by omega, by simp⟩
    · obtain ⟨k, hk, hk'⟩ := ih (start + 1) st h
      exact ⟨k + 1, by omega, by simp; omega⟩

theorem trimStart_stopped (s : List Nat) : ∀ start st, trimStart s start = .stopped st →
    ∃ k, st = start + k ∧ k ≤ s.length ∧
      (s.drop k = [] ∨ ∃ c t, s.drop k = c :: t ∧ c < 0x80 ∧ asciiSpace c = 0) := by
  induction s with
  | nil => intro start st h; simp [trimStart] at h; exact ⟨0, by omega, by simp, Or.inl (by simp)⟩
  | cons c rest ih =>
    intro start st h
    unfold trimStart at h
    split_ifs at h with h1 h2
    · injection h with h
      exact ⟨0, by omega, by simp, Or.inr ⟨c, rest, by simp, by unfold RuneSelf at h1; omega, h2⟩⟩
    · obtain ⟨k, hk, hk', hd⟩ := ih (start + 1) st h
      exact ⟨k + 1, by omega, by simp; omega, by simpa using hd⟩

theorem trimStop_nonASCII (start : Nat) (l : List Nat) : ∀ stop, trimStop start l = .nonASCII stop →
    ∃ l', l' <:+ l ∧ l' ≠ [] ∧ stop = start + l'.length := by
  induction l with
  | nil => intro stop h; simp [trimStop] at h
  | cons c rest ih =>
    intro stop h
    unfold trimStop at h
    split_ifs at h with h1 h2
    · injection h with h
      exact ⟨c :: rest, List.suffix_refl _, by simp, by simp; omega⟩
    · obtain ⟨l', hl, hne, hs⟩ := ih stop h
      exact ⟨l', hl.trans (List.suffix_cons c rest), hne, hs⟩

theorem trimStop_stopped (start : Nat) (l : List Nat) : ∀ stop, trimStop start l = .stopped stop →
    ∃ l', l' <:+ l ∧ stop = start + l'.length ∧
      (l' = [] ∨ ∃ c t, l' = c :: t ∧ c < 0x80 ∧ asciiSpace c = 0) := by
  induction l with
  | nil =>
    intro stop h
    simp [trimStop] at h
    exact ⟨[], List.suffix_refl _, by simp; omega, Or.inl rfl⟩
  | cons c rest ih =>
    intro stop h
    unfold trimStop at h
    split_ifs at h with h1 h2
    · injection h with h
      exact ⟨c :: rest, List.suffix_refl _, by simp; omega,
        Or.inr ⟨c, rest, rfl, by unfold RuneSelf at h1; omega, h2⟩⟩
    · obtain ⟨l', hl, hs, hc⟩ := ih stop h
      exact ⟨l', hl.trans (List.suffix_cons c rest), hs, hc⟩

/-- The slice `s[start:stop]` cut by the second scan of `TrimSpace`. -/
theorem slice_of_suffix (s l' : List Nat) (k : Nat) (h : l' <:+ (s.drop k).reverse) :
    (s.take (k + l'.length)).drop k = l'.reverse ∧ ∃ t, s.drop k = l'.reverse ++ t := by
  obtain ⟨t, ht⟩ := h
  have h2 : s.drop k = l'.reverse ++ t.reverse := by
    have := congrArg List.reverse ht
    simpa using this.symm
  refine ⟨?_, t.reverse, h2⟩
  rw [List.drop_take, h2]
  simp

theorem decodeLast_ascii (t : List Nat) (c : Nat) (h : c < 0x80) :
    DecodeLastRuneInString (t ++ [c]) = (c, 1) := by
  unfold DecodeLastRuneInString
  simp [List.getD_eq_getElem?_getD, RuneSelf, h]

/-- The three ways `TrimSpace` computes its result. -/
theorem trimSpace_cases (s : List Nat) :
    (∃ k, TrimSpace s = TrimFunc (s.drop k) IsSpace) ∨
    (∃ k c X t, s.drop k = (c :: X) ++ t ∧ c < 0x80 ∧ asciiSpace c = 0 ∧
      TrimSpace s = TrimRightFunc (c :: X) IsSpace) ∨
    TrimSpace s = [] ∨
    (∃ k c X Y c' t, s.drop k = (c :: X) ++ t ∧ c < 0x80 ∧ asciiSpace c = 0 ∧
      c :: X = Y ++ [c'] ∧ c' < 0x80 ∧ asciiSpace c' = 0 ∧ TrimSpace s = c :: X) := by
  unfold TrimSpace
  cases h1 : trimStart s 0 with
  | nonASCII st => exact Or.inl ⟨st, rfl⟩
  | stopped st =>
    obtain ⟨k, hk, _, hd⟩ := trimStart_stopped s 0 st h1
    have hst : st = k := by omega
    subst hst
    simp only
    cases h2 : trimStop st ((s.drop st).reverse) with
    | nonASCII stop =>
      obtain ⟨l', hl, hne, hs⟩ := trimStop_nonASCII st _ stop h2
      obtain ⟨hX, t, ht⟩ := slice_of_suffix s l' st hl
      subst hs
      simp only
      rw [hX]
      rcases hd with hd | ⟨c, t0, hd, hc, hc'⟩
      · rw [hd] at ht
        have : l'.reverse = [] := (List.append_eq_nil.mp ht.symm).1
        exact absurd (List.reverse_eq_nil_iff.mp this) hne
      · cases hr : l'.reverse with
        | nil => exact absurd (List.reverse_eq_nil_iff.mp hr) hne
        | cons c1 X =>
          rw [hr, hd] at ht
          have hc1 : c = c1 := by
            have := congrArg List.head? ht
            simpa using this
          subst hc1
          exact Or.inr (Or.inl ⟨st, c, X, t, by rw [hd, ht], hc, hc', rfl⟩)
    | stopped stop =>
      obtain ⟨l', hl, hs, hlast⟩ := trimStop_stopped st _ stop h2
      obtain ⟨hX, t, ht⟩ := slice_of_suffix s l' st hl
      subst hs
      simp only
      rw [hX]
      rcases hlast with hl0 | ⟨c', t', hl', hc1, hc2⟩
      · right; right; left; rw [hl0]; rfl
      · right; right; right
        have hne : l'.reverse ≠ [] := by rw [hl']; simp
        rcases hd with hd | ⟨c, t0, hd, hc, hc'⟩
        · rw [hd] at ht
          exact absurd (List.append_eq_nil.mp ht.symm).1 hne
        · cases hr : l'.reverse with
          | nil => exact absurd hr hne
          | cons c1 X =>
            rw [hr, hd] at ht
            have hc1' : c = c1 := by
              have := congrArg List.head? ht
              simpa using this
            subst hc1'
            refine ⟨st, c, X, t'.reverse, c', t, by rw [hd, ht], hc, hc', ?_, hc1, hc2, rfl⟩
            rw [← hr, hl']; simp

theorem part_contiguous (s : List Nat) (k e : Nat) : ∃ a b, s = a ++ (s.drop k).take e ++ b :=
  ⟨s.take k, (s.drop k).drop e, by
    rw [List.append_assoc, List.take_append_drop, List.take_append_drop]⟩

/-- The result of `TrimSpace` is a contiguous part of its argument. -/
theorem trimSpace_contiguous (s : List Nat) : ∃ a b, s = a ++ TrimSpace s ++ b := by
  rcases trimSpace_cases s with ⟨k, h⟩ | ⟨k, c, X, t, hd, _, _, h⟩ | h |
    ⟨k, c, X, Y, c', t, hd, _, _, _, _, _, h⟩
  · obtain ⟨k', e, hp⟩ := trimFunc_part (s.drop k) IsSpace isSpace_runeError
    rw [h, hp, List.drop_drop]
    exact part_contiguous s _ e
  · obtain ⟨e, _, he, _⟩ := trimRight_spec (c :: X) IsSpace isSpace_runeError
    rw [h, he]
    refine ⟨s.take k, (c :: X).drop e ++ t, ?_⟩
    rw [List.append_assoc, ← List.append_assoc ((c :: X).take e), List.take_append_drop, ← hd,
      List.take_append_drop]
  · rw [h]; exact ⟨s, [], by simp⟩
  · rw [h]
    exact ⟨s.take k, t, by rw [List.append_assoc, ← hd, List.take_append_drop]⟩

theorem trimSpace_length_le (s : List Nat) : (TrimSpace s).length ≤ s.length := by
  obtain ⟨a, b, h⟩ := trimSpace_contiguous s
  have := congrArg List.length h
  simp at this
  omega

/-- The first rune of a non-empty result of `TrimSpace` is not white space. -/
theorem trimSpace_first (s : List Nat) (hne : TrimSpace s ≠ []) :
    IsSpace (DecodeRuneInString (TrimSpace s)).1 = false := by
  rcases trimSpace_cases s with ⟨k, h⟩ | ⟨k, c, X, t, hd, hc, hc', h⟩ | h |
    ⟨k, c, X, Y, c', t, hd, hc, hc', _, _, _, h⟩
  · rw [h] at hne ⊢
    exact trimFunc_first _ _ isSpace_runeError hne
  · obtain ⟨e, _, he, _⟩ := trimRight_spec (c :: X) IsSpace isSpace_runeError
    rw [h, he] at hne ⊢
    obtain ⟨m, rfl⟩ : ∃ m, e = m + 1 := by
      cases e with
      | zero => simp at hne
      | succ m => exact ⟨m, rfl⟩
    rw [List.take_succ_cons, decode_ascii c _ hc]
    exact (isSpace_ascii_false c hc).mpr hc'
  · exact absurd h hne
  · rw [h, decode_ascii c _ hc]
    exact (isSpace_ascii_false c hc).mpr hc'

/-- The last rune of a non-empty result of `TrimSpace` is not white space. -/
theorem trimSpace_last (s : List Nat) (hne : TrimSpace s ≠ []) :
    IsSpace (DecodeLastRuneInString (TrimSpace s)).1 = false := by
  rcases trimSpace_cases s with ⟨k, h⟩ | ⟨k, c, X, t, hd, hc, hc', h⟩ | h |
    ⟨k, c, X, Y, c', t, hd, _, _, hY, hc, hc', h⟩
  · rw [h] at hne ⊢
    exact trimFunc_last _ _ isSpace_runeError hne
  · rw [h] at hne ⊢
    exact trimRight_last _ _ isSpace_runeError hne
  · exact absurd h hne
  · rw [h, hY, decodeLast_ascii Y c' hc]
    exact (isSpace_ascii_false c' hc).mpr hc'

theorem runes_cons_ascii (c : Nat) (t : List Nat) (h : c < 0x80) :
    runes (c :: t) = c :: runes t := by
  have h1 : runesLoop (t.length + 1) (c :: t)
      = (DecodeRuneInString (c :: t)).1
        :: runesLoop t.length ((c :: t).drop (DecodeRuneInString (c :: t)).2) := by
    rw [runesLoop]; simp
  unfold runes
  rw [List.length_cons, h1, decode_ascii c t h]
  simp

/-- On a string of white space runes the first scan of `TrimSpace` runs to the
end or to a non-ASCII byte before a rest of white space runes. -/
theorem trimStart_allSpace (s : List Nat) : ∀ start, (∀ r ∈ runes s, IsSpace r = true) →
    trimStart s start = .stopped (start + s.length) ∨
    ∃ k, trimStart s start = .nonASCII (start + k) ∧ ∀ r ∈ runes (s.drop k), IsSpace r = true := by
  induction s with
  | nil => intro start _; left; simp [trimStart]
  | cons c rest ih =>
    intro start h
    unfold trimStart
    by_cases h1 : c ≥ RuneSelf
    · right; exact ⟨0, by simp [h1], by simpa using h⟩
    · have hc : c < 0x80 := by unfold RuneSelf at h1; omega
      rw [runes_cons_ascii c rest hc] at h
      have hsp : asciiSpace c = 1 := (isSpace_ascii c hc).mp (h c (List.mem_cons_self _ _))
      have h2 : ¬ asciiSpace c = 0 := by omega
      simp only [h1, h2, if_false]
      rcases ih (start + 1) (fun r hr => h r (List.mem_cons_of_mem _ hr)) with h3 | ⟨k, h3, h4⟩
      · left; rw [h3]; simp; omega
      · right
        refine ⟨k + 1, ?_, by simpa using h4⟩
        rw [h3]; simp; omega

/-- A string that consists of white space runes only is trimmed to the empty
string. -/
theorem trimSpace_allSpace (s : List Nat) (h : ∀ r ∈ runes s, IsSpace r = true) :
    TrimSpace s = [] := by
  unfold TrimSpace
  rcases trimStart_allSpace s 0 h with h1 | ⟨k, h1, h2⟩
  · rw [h1]
    simp [trimStop]
  · rw [h1]
    simp only [Nat.zero_add]
    unfold TrimFunc
    rw [trimLeft_all _ _ h2, trimRight_nil]

/-- A string that neither starts nor ends with a white space rune is returned
unchanged. -/
theorem trimSpace_id (s : List Nat) (h1 : IsSpace (DecodeRuneInString s).1 = false)
    (h2 : IsSpace (DecodeLastRuneInString s).1 = false) : TrimSpace s = s := by
  cases s with
  | nil => decide
  | cons c rest =>
    unfold TrimSpace
    by_cases hc : c ≥ RuneSelf
    · have : trimStart (c :: rest) 0 = .nonASCII 0 := by simp [trimStart, hc]
      rw [this]
      simp only [List.drop_zero]
      unfold TrimFunc
      rw [trimLeft_id _ _ (by simp) h1, trimRight_id _ _ (by simp) h2]
    · have hc' : c < 0x80 := by unfold RuneSelf at hc; omega
      rw [decode_ascii c rest hc'] at h1
      have ha : asciiSpace c = 0 := (isSpace_ascii_false c hc').mp h1
      have : trimStart (c :: rest) 0 = .stopped 0 := by simp [trimStart, hc, ha]
      rw [this]
      simp only [List.drop_zero]
      obtain ⟨Y, c1, hY⟩ : ∃ Y c1, c :: rest = Y ++ [c1] :=
        ⟨(c :: rest).dropLast, (c :: rest).getLast (by simp),
          (List.dropLast_append_getLast _).symm⟩
      rw [hY, List.reverse_append, List.reverse_singleton, List.singleton_append]
      rw [hY] at h2
      unfold trimStop
      by_cases hc1 : c1 ≥ RuneSelf
      · simp only [hc1, if_true, List.length_reverse, Nat.zero_add]
        have hl : (Y ++ [c1]).take (Y.length + 1) = Y ++ [c1] := by
          apply List.take_of_length_le; simp
        rw [hl]
        exact trimRight_id _ _ (by simp) h2
      · have hc1' : c1 < 0x80 := by unfold RuneSelf at hc1; omega
        rw [decodeLast_ascii Y c1 hc1'] at h2
        have ha1 : asciiSpace c1 = 0 := (isSpace_ascii_false c1 hc1').mp h2
        simp only [hc1, ha1, if_true, if_false, List.length_reverse, Nat.zero_add]
        simp

/-! ### The fuel of the loops is enough -/

/-- More fuel than the length of the string does not change the result of the
loop of `indexFunc`: the loop ends before the fuel does. -/
theorem indexFuncLoop_fuel (f : Nat → Bool) (truth : Bool) :
    ∀ fuel (s : List Nat) (i : Nat), s.length ≤ fuel →
      indexFuncLoop f truth (fuel + 1) s i = indexFuncLoop f truth fuel s i := by
  intro fuel
  induction fuel with
  | zero =>
    intro s i h
    have : s.length = 0 := by omega
    simp [indexFuncLoop, this]
  | succ n ih =>
    intro s i h
    rw [indexFuncLoop]
    conv_rhs => rw [indexFuncLoop]
    by_cases h0 : s.length = 0
    · simp [h0]
    · have hne : s ≠ [] := fun h => h0 (by simp [h])
      have hp := decode_width_pos s hne
      have hl : (s.drop (DecodeRuneInString s).2).length ≤ n := by
        rw [List.length_drop]; omega
      simp only [h0, if_false]
      rw [ih _ _ hl]

/-- More fuel than the start value does not change the result of the loop of
`lastIndexFunc`. -/
theorem lastIndexFuncLoop_fuel (s : List Nat) (f : Nat → Bool) (truth : Bool) :
    ∀ fuel i, i ≤ fuel → i ≤ s.length →
      lastIndexFuncLoop s f truth (fuel + 1) i = lastIndexFuncLoop s f truth fuel i := by
  intro fuel
  induction fuel with
  | zero =>
    intro i h _
    have : i = 0 := by omega
    simp [lastIndexFuncLoop, this]
  | succ n ih =>
    intro i h hlen
    rw [lastIndexFuncLoop]
    conv_rhs => rw [lastIndexFuncLoop]
    by_cases h0 : i > 0
    · have hlt : (s.take i).length = i := by rw [List.length_take]; exact Nat.min_eq_left hlen
      have hne : s.take i ≠ [] := by
        intro h
        have := congrArg List.length h
        rw [hlt] at this
        simp at this; omega
      obtain ⟨hw1, _, _⟩ := decodeLast_spec (s.take i) hne
      simp only [h0, if_true]
      rw [ih _ (by omega) (by omega)]
    · simp [h0]

/-- More fuel than the length of the string does not change the runes. -/
theorem runesLoop_fuel :
    ∀ fuel (s : List Nat), s.length ≤ fuel → runesLoop (fuel + 1) s = runesLoop fuel s := by
  intro fuel
  induction fuel with
  | zero =>
    intro s h
    have : s.length = 0 := by omega
    simp [runesLoop, this]
  | succ n ih =>
    intro s h
    rw [runesLoop]
    conv_rhs => rw [runesLoop]
    by_cases h0 : s.length = 0
    · simp [h0]
    · have hne : s ≠ [] := fun h => h0 (by simp [h])
      have hp := decode_width_pos s hne
      have hl : (s.drop (DecodeRuneInString s).2).length ≤ n := by
        rw [List.length_drop]; omega
      simp only [h0, if_false]
      rw [ih _ hl]

/-- The backward scan of `DecodeLastRuneInString` ends before its fuel does. -/
theorem scanStart_fuel (s : List Nat) (lim : Nat) :
    ∀ fuel k, k ≤ lim + fuel → scanStart s lim (fuel + 1) k = scanStart s lim fuel k := by
  intro fuel
  induction fuel with
  | zero =>
    intro k h
    have : ¬ k ≥ lim + 1 := by omega
    simp [scanStart, this]
  | succ n ih =>
    intro k h
    rw [scanStart]
    conv_rhs => rw [scanStart]
    by_cases h0 : k ≥ lim + 1
    · simp only [h0, if_true]
      rw [ih _ (by omega)]
    · simp [h0]

/-- The fuel `UTFMax` is enough for the scan of `DecodeLastRuneInString`. -/
theorem scanStart_enough (s : List Nat) :
    scanStart s (s.length - UTFMax) (UTFMax + 1) (s.length - 1)
      = scanStart s (s.length - UTFMax) UTFMax (s.length - 1) :=
  scanStart_fuel s _ _ _ (by omega)

/-- The loop of `parseIPv6` ends before its fuel does: every round adds at
least 2 to `i`. -/
theorem parseIPv6Loop_fuel :
    ∀ fuel (st : V6State), IPv6len ≤ st.i + 2 * fuel →
      parseIPv6Loop (fuel + 1) st = parseIPv6Loop fuel st := by
  intro fuel
  induction fuel with
  | zero =>
    intro st h
    have : ¬ st.i < IPv6len := by omega
    simp [parseIPv6Loop, this]
  | succ n ih =>
    intro st h
    rw [parseIPv6Loop]
    conv_rhs => rw [parseIPv6Loop]
    by_cases h0 : st.i < IPv6len
    · simp only [h0, not_true_eq_false, if_false]
      rw [ih _ (by simp only; omega), ih _ (by simp only; omega)]
    · simp [h0]

/-! ### The program -/

theorem loopBody_ok (config : Configuration) (rd : ReadResult) (h1 : 0 ≤ rd.rlen)
    (h2 : rd.rlen ≤ config.MaxBuf) :
    loopBody config rd =
      .next (rd.err.toList.map Line.recvError ++
          if config.Debug > 9 then [Line.packet (payloadOf config rd)] else [])
        (config.Dests.map fun dst =>
          { addr := { Port := dst.Port, IP := ParseIP dst.IP },
            pkt := payloadOf config rd, debug := config.Debug : SendCall }) := by
  unfold loopBody payloadOf
  have h0 : ¬ config.MaxBuf < 0 := by omega
  have h3 : ¬ (rd.rlen < 0 ∨ rd.rlen > config.MaxBuf) := by omega
  simp only [h0, h3, if_false]
  cases rd.err <;> rfl

theorem runSends_map (conn : UDPConn) (w : Nat → WriteResult) (l : List SendCall) :
    ∀ k, (runSends conn w k l).map (fun e => (e.dest, e.datagram))
      = l.map (fun c => (c.addr, c.pkt)) := by
  induction l with
  | nil => intro k; simp [runSends]
  | cons c rest ih => intro k; simp [runSends, sendUDPpkt, ih]

theorem bufferAfterRead_length (m : Nat) (data : List Nat) :
    (bufferAfterRead m data).length = m := by
  unfold bufferAfterRead
  simp
  omega

theorem received_datagram (m : Nat) (P : List Nat) :
    (bufferAfterRead m (recvDatagram m P).data).take (recvDatagram m P).rlen.toNat
      = P.take m := by
  unfold bufferAfterRead recvDatagram
  simp only [Int.toNat_ofNat]
  rw [List.take_append_of_le_length (by simp)]
  simp [List.take_take]
  exact Nat.min_comm _ _

theorem cycle_effects (config : Configuration) (conn : UDPConn) (rd : ReadResult)
    (w : Nat → WriteResult) (h1 : 0 ≤ rd.rlen) (h2 : rd.rlen ≤ config.MaxBuf) :
    (cycle config conn rd w).step.continues = true ∧
    (cycle config conn rd w).step.sends = (config.Dests.map fun dst =>
          { addr := { Port := dst.Port, IP := ParseIP dst.IP },
            pkt := payloadOf config rd, debug := config.Debug : SendCall }) ∧
    (cycle config conn rd w).effects.map (fun e => (e.dest, e.datagram))
      = config.Dests.map
          (fun d => (({ Port := d.Port, IP := ParseIP d.IP } : UDPAddr), payloadOf config rd)) := by
  have h := loopBody_ok config rd h1 h2
  unfold cycle
  simp only [h, Step.continues, Step.sends, runSends_map, List.map_map, true_and]
  rfl

theorem mem_effects (config : Configuration) (conn : UDPConn) (rd : ReadResult)
    (w : Nat → WriteResult) (h1 : 0 ≤ rd.rlen) (h2 : rd.rlen ≤ config.MaxBuf)
    (e : SendEffect) (he : e ∈ (cycle config conn rd w).effects) :
    e.datagram = payloadOf config rd := by
  have h := (cycle_effects config conn rd w h1 h2).2.2
  have hm : (e.dest, e.datagram) ∈
      (cycle config conn rd w).effects.map (fun e => (e.dest, e.datagram)) :=
    List.mem_map_of_mem _ he
  rw [h] at hm
  obtain ⟨d, _, hd⟩ := List.mem_map.mp hm
  exact (congrArg Prod.snd hd).symm

theorem payloadOf_recv (config : Configuration) (P : List Nat) :
    payloadOf config (recvDatagram config.MaxBuf.toNat P)
      = TrimSpace (P.take config.MaxBuf.toNat) := by
  unfold payloadOf
  rw [received_datagram]

theorem recv_bounds (config : Configuration) (P : List Nat) (h0 : 0 ≤ config.MaxBuf) :
    0 ≤ (recvDatagram config.MaxBuf.toNat P).rlen ∧
    (recvDatagram config.MaxBuf.toNat P).rlen ≤ config.MaxBuf := by
  unfold recvDatagram
  simp only
  omega

theorem trimSpace_eq_self_iff (s : List Nat) :
    TrimSpace s = s ↔
      (IsSpace (DecodeRuneInString s).1 = false ∧ IsSpace (DecodeLastRuneInString s).1 = false) := by
  constructor
  · intro h
    by_cases hs : s = []
    · subst hs; decide
    · have hne : TrimSpace s ≠ [] := by rw [h]; exact hs
      have h1 := trimSpace_first s hne
      have h2 := trimSpace_last s hne
      rw [h] at h1 h2
      exact ⟨h1, h2⟩
  · intro ⟨h1, h2⟩
    exact trimSpace_id s h1 h2

theorem mainLoop_cons (config : Configuration) (rd : ReadResult) (rest : List ReadResult)
    (h1 : 0 ≤ rd.rlen) (h2 : rd.rlen ≤ config.MaxBuf) :
    mainLoop config (rd :: rest) = loopBody config rd :: mainLoop config rest := by
  rw [mainLoop, loopBody_ok config rd h1 h2]

/-- When the file can be opened, `getConfig` returns a nil error, whatever
`json.Unmarshal` returns. -/
theorem getConfig_of_open (Unmarshal : Unmarshaler) (fs : FileSystem) (fn : String)
    (content : List Nat) (hopen : fs fn = some content) :
    getConfig Unmarshal fs fn = ((Unmarshal content {}).1, none) := by
  unfold getConfig; rw [hopen]

/-- When the file cannot be opened, `getConfig` returns an error. -/
theorem getConfig_of_not_open (Unmarshal : Unmarshaler) (fs : FileSystem) (fn : String)
    (hopen : fs fn = none) :
    getConfig Unmarshal fs fn = ({}, some "Unable to open Config File!") := by
  unfold getConfig; rw [hopen]

/-- The "Sent" line of `sendUDPpkt` depends on the verbosity only. -/
theorem sent_line_iff (conn : UDPConn) (addr : UDPAddr) (pkt : List Nat) (debug : Int)
    (w : WriteResult) :
    Line.sent w.n conn.LocalAddr addr ∈ (sendUDPpkt conn addr pkt debug w).out ↔ debug > 8 := by
  unfold sendUDPpkt
  by_cases hd : debug > 8 <;> by_cases he : w.err = none <;> simp [hd, he]

/-- The error line of `sendUDPpkt` is printed exactly for a failed write. -/
theorem send_error_line_iff (conn : UDPConn) (addr : UDPAddr) (pkt : List Nat) (debug : Int)
    (w : WriteResult) :
    Line.sendError addr ∈ (sendUDPpkt conn addr pkt debug w).out ↔ w.err ≠ none := by
  unfold sendUDPpkt
  by_cases hd : debug > 8 <;> by_cases he : w.err = none <;> simp [hd, he]

/-- A read that fails with the count 0 is followed by one send with an empty
payload per destination. -/
theorem recv_error_sends (config : Configuration) (e : String) (h0 : 0 ≤ config.MaxBuf) :
    (loopBody config { data := [], rlen := 0, err := some e }).sends
      = config.Dests.map fun d =>
          { addr := { Port := d.Port, IP := ParseIP d.IP }, pkt := [],
            debug := config.Debug : SendCall } := by
  rw [loopBody_ok config _ (le_refl _) h0]
  unfold payloadOf
  simp only [Step.sends, Int.toNat_zero, List.take_zero]
  rfl

/-! ## The claims -/

/-- C1. Fan-out completeness: for every configuration and every successfully
received datagram (buffer, rlen), one iteration of the receive loop goes on to
the next read and starts exactly one call of `sendUDPpkt` per destination
entry, in configuration order; the call for the entry `d` writes to the address
`(ParseIP(d.IP), d.Port)`, and every call writes the same payload:
`strings.TrimSpace` of the first `rlen` bytes of the buffer. The loop itself
prints the payload when the verbosity is above 9, and nothing else. -/
theorem fanout_complete (config : Configuration) (conn : UDPConn) (rd : ReadResult)
    (w : Nat → WriteResult) (herr : rd.err = none) (h1 : 0 ≤ rd.rlen)
    (h2 : rd.rlen ≤ config.MaxBuf) :
    (cycle config conn rd w).step.continues = true ∧
    (cycle config conn rd w).step.sends.length = config.Dests.length ∧
    (cycle config conn rd w).effects.length = config.Dests.length ∧
    (cycle config conn rd w).effects.map (fun e => (e.dest, e.datagram))
      = config.Dests.map (fun d =>
          (({ Port := d.Port, IP := ParseIP d.IP } : UDPAddr),
            TrimSpace ((bufferAfterRead config.MaxBuf.toNat rd.data).take rd.rlen.toNat))) ∧
    (cycle config conn rd w).step.out
      = if config.Debug > 9 then
          [Line.packet (TrimSpace
            ((bufferAfterRead config.MaxBuf.toNat rd.data).take rd.rlen.toNat))]
        else [] := by
  obtain ⟨hc, hs, he⟩ := cycle_effects config conn rd w h1 h2
  refine ⟨hc, by rw [hs, List.length_map], ?_, he, ?_⟩
  · have := congrArg List.length he
    simpa using this
  · unfold cycle
    simp only [loopBody_ok config rd h1 h2, Step.out, herr]
    rfl

/-- Witness of C1, the concrete scenario: the destinations 127.0.0.1:8514 and
[::1]:7514 and the payload "hello" give exactly two sends with payload "hello",
to 127.0.0.1:8514 and to [::1]:7514, and with debug 10 the line "hello". -/
theorem fanout_complete_witness :
    (recvDatagram 2048 (ascii "hello")).err = none ∧
    (0 : Int) ≤ (recvDatagram 2048 (ascii "hello")).rlen ∧
    (recvDatagram 2048 (ascii "hello")).rlen ≤ scenarioConfig.MaxBuf ∧
    (cycle scenarioConfig scenarioConn (recvDatagram 2048 (ascii "hello"))
        (fun _ => ⟨5, none⟩)).effects.length = 2 ∧
    (cycle scenarioConfig scenarioConn (recvDatagram 2048 (ascii "hello"))
        (fun _ => ⟨5, none⟩)).effects.map (fun e => (e.dest, e.datagram))
      = [(⟨some (IPv4 127 0 0 1), 8514⟩, ascii "hello"),
         (⟨some [0, 0, 0, 0, 0, 0, 0, 0, 0, 0, 0, 0, 0, 0, 0, 1], 7514⟩, ascii "hello")] ∧
    (cycle scenarioConfig scenarioConn (recvDatagram 2048 (ascii "hello"))
        (fun _ => ⟨5, none⟩)).step.out = [Line.packet (ascii "hello")] :=
  ⟨rfl, by decide, by decide,
   (fanout_complete scenarioConfig scenarioConn (recvDatagram 2048 (ascii "hello"))
      (fun _ => ⟨5, none⟩) rfl (by decide) (by decide)).2.2.1,
   (fanout_complete scenarioConfig scenarioConn (recvDatagram 2048 (ascii "hello"))
      (fun _ => ⟨5, none⟩) rfl (by decide) (by decide)).2.2.2.1.trans (by decide),
   (fanout_complete scenarioConfig scenarioConn (recvDatagram 2048 (ascii "hello"))
      (fun _ => ⟨5, none⟩) rfl (by decide) (by decide)).2.2.2.2.trans (by decide)⟩

/-- C2 (as stated) fails: the destination entry with the host "not-an-ip" and
the port 70000 is rejected neither by `getConfig` nor by `main`; the program
enters the receive loop and dispatches a send for the received datagram, to the
nil IP and the port 70000. -/
theorem malformed_destination_counterexample :
    ParseIP (ascii "not-an-ip") = none ∧
    ¬ ((1 : Int) ≤ 70000 ∧ (70000 : Int) ≤ 65535) ∧
    getConfig (decodeTo malformedConfig) (fun _ => some (ascii "config")) "./config.json"
      = (malformedConfig, none) ∧
    main (decodeTo malformedConfig) (fun _ => some (ascii "config"))
        (fun _ => .ok scenarioConn) [recvDatagram 2048 (ascii "hello")]
      = (.serving malformedConfig scenarioConn [Line.listening scenarioConn.LocalAddr],
         [.next [] [{ addr := ⟨none, 70000⟩, pkt := ascii "hello", debug := 0 }]]) ∧
    (cycle malformedConfig scenarioConn (recvDatagram 2048 (ascii "hello"))
        (fun _ => ⟨5, none⟩)).effects.map (fun e => (e.dest, e.datagram))
      = [(⟨none, 70000⟩, ascii "hello")] := by
  decide

/-- C2 (amended). Destination entries are not validated: whatever the host and
the port of the entries are, `getConfig` returns the decoded configuration
with a nil error when the file can be opened, `main` enters the receive loop
with it when the listen succeeds, and every received datagram is dispatched to
every entry `d`, at the address `(ParseIP(d.IP), d.Port)`: with a nil IP when
the host does not parse, and with the port as configured; the loop goes on. -/
theorem destinations_not_validated (Unmarshal : Unmarshaler) (fs : FileSystem)
    (ListenUDP : UDPAddr → Except String UDPConn) (content : List Nat) (conn : UDPConn)
    (rd : ReadResult) (w : Nat → WriteResult) (d : Dest)
    (hopen : fs "./config.json" = some content)
    (hlisten : ListenUDP { Port := (Unmarshal content {}).1.Port, IP := ParseIP (ascii "0.0.0.0") }
      = .ok conn)
    (hd : d ∈ (Unmarshal content {}).1.Dests)
    (h1 : 0 ≤ rd.rlen) (h2 : rd.rlen ≤ (Unmarshal content {}).1.MaxBuf) :
    getConfig Unmarshal fs "./config.json" = ((Unmarshal content {}).1, none) ∧
    main Unmarshal fs ListenUDP [rd]
      = (.serving (Unmarshal content {}).1 conn [Line.listening conn.LocalAddr],
         [loopBody (Unmarshal content {}).1 rd]) ∧
    (loopBody (Unmarshal content {}).1 rd).continues = true ∧
    (({ Port := d.Port, IP := ParseIP d.IP } : UDPAddr),
        TrimSpace ((bufferAfterRead (Unmarshal content {}).1.MaxBuf.toNat rd.data).take
          rd.rlen.toNat))
      ∈ (cycle (Unmarshal content {}).1 conn rd w).effects.map
          (fun e => (e.dest, e.datagram)) := by
  have hg := getConfig_of_open Unmarshal fs "./config.json" content hopen
  have hm : mainStart Unmarshal fs ListenUDP
      = .serving (Unmarshal content {}).1 conn [Line.listening conn.LocalAddr] := by
    unfold mainStart
    rw [hg]
    simp only [hlisten]
  refine ⟨hg, ?_, (cycle_effects _ conn rd w h1 h2).1, ?_⟩
  · unfold main
    rw [hm]
    simp only
    rw [mainLoop_cons _ rd [] h1 h2, mainLoop]
  · rw [(cycle_effects _ conn rd w h1 h2).2.2]
    exact List.mem_map.mpr ⟨d, hd, rfl⟩

/-- Witness of C2 (amended): the entry with the host "not-an-ip" and the port
70000 is served: it gets the datagram "hello", at the nil IP. -/
theorem destinations_not_validated_witness :
    (⟨ascii "not-an-ip", 70000⟩ : Dest) ∈ malformedConfig.Dests ∧
    ParseIP (ascii "not-an-ip") = none ∧
    (main (decodeTo malformedConfig) (fun _ => some (ascii "config"))
        (fun _ => .ok scenarioConn) [recvDatagram 2048 (ascii "hello")]).1
      = .serving malformedConfig scenarioConn [Line.listening scenarioConn.LocalAddr] ∧
    ((⟨none, 70000⟩ : UDPAddr), ascii "hello")
      ∈ (cycle malformedConfig scenarioConn (recvDatagram 2048 (ascii "hello"))
          (fun _ => ⟨5, none⟩)).effects.map (fun e => (e.dest, e.datagram)) :=
  ⟨by decide, by decide,
   (destinations_not_validated (decodeTo malformedConfig) (fun _ => some (ascii "config"))
    (fun _ => .ok scenarioConn) (ascii "config") scenarioConn
    (recvDatagram 2048 (ascii "hello")) (fun _ => ⟨5, none⟩) ⟨ascii "not-an-ip", 70000⟩ rfl rfl
    (by decide) (by decide) (by decide)).2.1 ▸ rfl,
   (destinations_not_validated (decodeTo malformedConfig) (fun _ => some (ascii "config"))
    (fun _ => .ok scenarioConn) (ascii "config") scenarioConn
    (recvDatagram 2048 (ascii "hello")) (fun _ => ⟨5, none⟩) ⟨ascii "not-an-ip", 70000⟩ rfl rfl
    (by decide) (by decide) (by decide)).2.2.2⟩

/-- C3 (as stated) fails: the datagram "hello\n" (6 bytes, below maxbuf = 2048)
is handed to the sends as the 5 bytes "hello". -/
theorem verbatim_counterexample :
    ((ascii "hello\n").length : Int) ≤ scenarioConfig.MaxBuf ∧
    (cycle scenarioConfig scenarioConn (recvDatagram 2048 (ascii "hello\n"))
        (fun _ => ⟨5, none⟩)).effects.map (fun e => e.datagram)
      = [ascii "hello", ascii "hello"] ∧
    ascii "hello" ≠ ascii "hello\n" := by
  decide

/-- C3 (amended). For every received datagram `P` of at most maxbuf bytes and
every destination, the payload handed to the send for that destination is
`strings.TrimSpace(P)`: `P` without its leading and trailing Unicode white
space. It is byte-for-byte equal to `P` exactly when neither the first nor the
last rune of `P` is white space. -/
theorem payload_trimmed (config : Configuration) (conn : UDPConn) (w : Nat → WriteResult)
    (P : List Nat) (hP : (P.length : Int) ≤ config.MaxBuf)
    (e : SendEffect)
    (he : e ∈ (cycle config conn (recvDatagram config.MaxBuf.toNat P) w).effects) :
    e.datagram = TrimSpace P ∧
    (e.datagram = P ↔
      (IsSpace (DecodeRuneInString P).1 = false ∧
        IsSpace (DecodeLastRuneInString P).1 = false)) := by
  have h0 : 0 ≤ config.MaxBuf := by omega
  obtain ⟨hb1, hb2⟩ := recv_bounds config P h0
  have h := mem_effects config conn _ w hb1 hb2 e he
  rw [payloadOf_recv, List.take_of_length_le (by omega)] at h
  rw [h]
  exact ⟨rfl, trimSpace_eq_self_iff P⟩

/-- Witness of C3 (amended): the datagram "hello\n" is sent as
`TrimSpace("hello\n")`, which is "hello". -/
theorem payload_trimmed_witness :
    ((ascii "hello\n").length : Int) ≤ scenarioConfig.MaxBuf ∧
    sendUDPpkt scenarioConn ⟨some (IPv4 127 0 0 1), 8514⟩ (ascii "hello") 10 ⟨5, none⟩
      ∈ (cycle scenarioConfig scenarioConn (recvDatagram 2048 (ascii "hello\n"))
          (fun _ => ⟨5, none⟩)).effects ∧
    (sendUDPpkt scenarioConn ⟨some (IPv4 127 0 0 1), 8514⟩ (ascii "hello") 10
        ⟨5, none⟩).datagram = TrimSpace (ascii "hello\n") ∧
    TrimSpace (ascii "hello\n") = ascii "hello" :=
  ⟨by decide, by decide,
   (payload_trimmed scenarioConfig scenarioConn (fun _ => ⟨5, none⟩) (ascii "hello\n")
    (by decide) _ (by decide)).1, by decide⟩

/-- C4 (as stated) fails: with maxbuf = 4 the payload "abc\n" of exactly 4
bytes is forwarded as "abc", not whole; and of the payload "ab\n\nxyz" of 7
bytes the bytes "ab" are forwarded, not its first 4 bytes "ab\n\n". -/
theorem truncation_counterexample :
    ((ascii "abc\n").length : Int) = smallBufConfig.MaxBuf ∧
    (cycle smallBufConfig scenarioConn (recvDatagram 4 (ascii "abc\n"))
        (fun _ => ⟨3, none⟩)).effects.map (fun e => e.datagram) = [ascii "abc"] ∧
    ascii "abc" ≠ ascii "abc\n" ∧
    ((ascii "ab\n\nxyz").length : Int) > smallBufConfig.MaxBuf ∧
    (cycle smallBufConfig scenarioConn (recvDatagram 4 (ascii "ab\n\nxyz"))
        (fun _ => ⟨2, none⟩)).effects.map (fun e => e.datagram) = [ascii "ab"] ∧
    ascii "ab" ≠ (ascii "ab\n\nxyz").take 4 := by
  decide

/-- C4 (amended). Truncation at maxbuf: with the transport read modelled as
copying `min(len(P), MaxBuf)` bytes of an incoming payload `P` into the buffer,
for every `P` with `len(P) ≥ MaxBuf` the payload forwarded to every destination
is `strings.TrimSpace` of the first `MaxBuf` bytes of `P` (of the whole of `P`
when `len(P) = MaxBuf`); it is equal to these first `MaxBuf` bytes exactly when
neither their first nor their last rune is white space. -/
theorem truncation_trimmed (config : Configuration) (conn : UDPConn) (w : Nat → WriteResult)
    (P : List Nat) (h0 : 0 ≤ config.MaxBuf) (hP : config.MaxBuf ≤ (P.length : Int))
    (e : SendEffect)
    (he : e ∈ (cycle config conn (recvDatagram config.MaxBuf.toNat P) w).effects) :
    (P.take config.MaxBuf.toNat).length = config.MaxBuf.toNat ∧
    e.datagram = TrimSpace (P.take config.MaxBuf.toNat) ∧
    ((P.length : Int) = config.MaxBuf → e.datagram = TrimSpace P) ∧
    (e.datagram = P.take config.MaxBuf.toNat ↔
      (IsSpace (DecodeRuneInString (P.take config.MaxBuf.toNat)).1 = false ∧
        IsSpace (DecodeLastRuneInString (P.take config.MaxBuf.toNat)).1 = false)) := by
  obtain ⟨hb1, hb2⟩ := recv_bounds config P h0
  have h := mem_effects config conn _ w hb1 hb2 e he
  rw [payloadOf_recv] at h
  refine ⟨?_, h, ?_, ?_⟩
  · rw [List.length_take]; omega
  · intro hl
    rw [h, List.take_of_length_le (by omega)]
  · rw [h]
    exact trimSpace_eq_self_iff _

/-- Witness of C4 (amended): with maxbuf = 4, the payload "ab\n\nxyz" is
forwarded as `TrimSpace("ab\n\n")`, which is "ab". -/
theorem truncation_trimmed_witness :
    (0 : Int) ≤ smallBufConfig.MaxBuf ∧
    smallBufConfig.MaxBuf ≤ ((ascii "ab\n\nxyz").length : Int) ∧
    sendUDPpkt scenarioConn ⟨some (IPv4 127 0 0 1), 8514⟩ (ascii "ab") 10 ⟨2, none⟩
      ∈ (cycle smallBufConfig scenarioConn (recvDatagram 4 (ascii "ab\n\nxyz"))
          (fun _ => ⟨2, none⟩)).effects ∧
    (sendUDPpkt scenarioConn ⟨some (IPv4 127 0 0 1), 8514⟩ (ascii "ab") 10
        ⟨2, none⟩).datagram = TrimSpace ((ascii "ab\n\nxyz").take 4) ∧
    TrimSpace ((ascii "ab\n\nxyz").take 4) = ascii "ab" :=
  ⟨by decide, by decide, by decide,
   (truncation_trimmed smallBufConfig scenarioConn (fun _ => ⟨2, none⟩) (ascii "ab\n\nxyz")
    (by decide) (by decide) _ (by decide)).2.1, by decide⟩

/-- C5 fails on the code: when the file can be opened and `json.Unmarshal`
returns an error for its content, `getConfig` returns the zero configuration
with a nil error, and `main` goes on to bind the socket and to run the receive
loop (with a buffer of 0 bytes and no destination). When the file cannot be
opened, `getConfig` returns an error and `main` exits with status 1. -/
theorem getConfig_undecodable :
    (decodeFails (ascii "not json") {}).2 ≠ none ∧
    getConfig decodeFails (fun _ => some (ascii "not json")) "./config.json" = ({}, none) ∧
    main decodeFails (fun _ => some (ascii "not json")) (fun _ => .ok scenarioConn)
        [recvDatagram 0 (ascii "hello")]
      = (.serving {} scenarioConn [Line.listening scenarioConn.LocalAddr], [.next [] []]) ∧
    main decodeFails (fun _ => none) (fun _ => .ok scenarioConn)
        [recvDatagram 0 (ascii "hello")]
      = (.exit [Line.configError "Unable to open Config File!"] 1, []) := by
  decide

/-- C6. Isolation: the sends dispatched in a receive cycle do not depend on the
outcome of any send. For any two assignments `w1`, `w2` of results to the
writes, the step of the loop is the same, every destination entry gets exactly
one send, with the same address and payload, and the loop goes on with the
next read. -/
theorem isolation (config : Configuration) (conn : UDPConn) (rd : ReadResult)
    (w1 w2 : Nat → WriteResult) (rest : List ReadResult)
    (h1 : 0 ≤ rd.rlen) (h2 : rd.rlen ≤ config.MaxBuf) :
    (cycle config conn rd w1).step = (cycle config conn rd w2).step ∧
    (cycle config conn rd w1).effects.map (fun e => (e.dest, e.datagram))
      = config.Dests.map (fun d =>
          (({ Port := d.Port, IP := ParseIP d.IP } : UDPAddr),
            TrimSpace ((bufferAfterRead config.MaxBuf.toNat rd.data).take rd.rlen.toNat))) ∧
    (cycle config conn rd w2).effects.map (fun e => (e.dest, e.datagram))
      = (cycle config conn rd w1).effects.map (fun e => (e.dest, e.datagram)) ∧
    (cycle config conn rd w1).step.continues = true ∧
    mainLoop config (rd :: rest) = (cycle config conn rd w1).step :: mainLoop config rest := by
  obtain ⟨hc, _, he⟩ := cycle_effects config conn rd w1 h1 h2
  obtain ⟨_, _, he'⟩ := cycle_effects config conn rd w2 h1 h2
  exact ⟨rfl, he, he'.trans he.symm, hc, mainLoop_cons config rd rest h1 h2⟩

/-- Witness of C6: the send to 127.0.0.1:8514 fails in one run and succeeds in
the other; in both runs the two sends are dispatched, to the same addresses and
with the same payload. -/
theorem isolation_witness :
    (0 : Int) ≤ (recvDatagram 2048 (ascii "hello")).rlen ∧
    (recvDatagram 2048 (ascii "hello")).rlen ≤ scenarioConfig.MaxBuf ∧
    (cycle scenarioConfig scenarioConn (recvDatagram 2048 (ascii "hello"))
        (fun k => if k = 0 then ⟨0, some "sendto: network is unreachable"⟩ else ⟨5, none⟩)
      ).effects.map (fun e => (e.dest, e.datagram))
      = (cycle scenarioConfig scenarioConn (recvDatagram 2048 (ascii "hello"))
        (fun _ => ⟨5, none⟩)).effects.map (fun e => (e.dest, e.datagram)) ∧
    (cycle scenarioConfig scenarioConn (recvDatagram 2048 (ascii "hello"))
        (fun k => if k = 0 then ⟨0, some "sendto: network is unreachable"⟩ else ⟨5, none⟩)
      ).effects.map (fun e => (e.dest, e.datagram))
      = [(⟨some (IPv4 127 0 0 1), 8514⟩, ascii "hello"),
         (⟨some [0, 0, 0, 0, 0, 0, 0, 0, 0, 0, 0, 0, 0, 0, 0, 1], 7514⟩, ascii "hello")] :=
  ⟨by decide, by decide,
   (isolation scenarioConfig scenarioConn (recvDatagram 2048 (ascii "hello"))
    (fun _ => ⟨5, none⟩)
    (fun k => if k = 0 then ⟨0, some "sendto: network is unreachable"⟩ else ⟨5, none⟩) []
    (by decide) (by decide)).2.2.1, by decide⟩

/-- C7. Empty destinations: for every configuration with an empty destination
list and every received datagram, one iteration of the receive loop dispatches
no send, ends neither the loop nor the process (it prints at most the received
packet), and the loop goes on with the next read. -/
theorem empty_destinations (config : Configuration) (conn : UDPConn) (rd : ReadResult)
    (w : Nat → WriteResult) (rest : List ReadResult) (hd : config.Dests = [])
    (herr : rd.err = none) (h1 : 0 ≤ rd.rlen) (h2 : rd.rlen ≤ config.MaxBuf) :
    (cycle config conn rd w).step.sends = [] ∧
    (cycle config conn rd w).effects = [] ∧
    (cycle config conn rd w).step.continues = true ∧
    (∀ l ∈ (cycle config conn rd w).step.out, ∃ data, l = Line.packet data) ∧
    mainLoop config (rd :: rest) = (cycle config conn rd w).step :: mainLoop config rest := by
  obtain ⟨hc, hs, _⟩ := cycle_effects config conn rd w h1 h2
  have hs' : (cycle config conn rd w).step.sends = [] := by rw [hs, hd]; rfl
  refine ⟨hs', ?_, hc, ?_, mainLoop_cons config rd rest h1 h2⟩
  · show runSends conn w 0 (cycle config conn rd w).step.sends = []
    rw [hs']; rfl
  · intro l hl
    have : (cycle config conn rd w).step.out
        = if config.Debug > 9 then [Line.packet (payloadOf config rd)] else [] := by
      unfold cycle
      simp only [loopBody_ok config rd h1 h2, Step.out, herr]
      rfl
    rw [this] at hl
    split_ifs at hl
    · exact ⟨_, List.mem_singleton.mp hl⟩
    · simp at hl

/-- Witness of C7: no destination and the datagram "hello": no send, and the
loop goes on. -/
theorem empty_destinations_witness :
    noDestConfig.Dests = [] ∧
    (recvDatagram 2048 (ascii "hello")).err = none ∧
    (0 : Int) ≤ (recvDatagram 2048 (ascii "hello")).rlen ∧
    (recvDatagram 2048 (ascii "hello")).rlen ≤ noDestConfig.MaxBuf ∧
    (cycle noDestConfig scenarioConn (recvDatagram 2048 (ascii "hello"))
      (fun _ => ⟨5, none⟩)).effects = [] ∧
    (cycle noDestConfig scenarioConn (recvDatagram 2048 (ascii "hello"))
      (fun _ => ⟨5, none⟩)).step.continues = true :=
  ⟨rfl, rfl, by decide, by decide,
   (empty_destinations noDestConfig scenarioConn (recvDatagram 2048 (ascii "hello"))
    (fun _ => ⟨5, none⟩) [] rfl rfl (by decide) (by decide)).2.1,
   (empty_destinations noDestConfig scenarioConn (recvDatagram 2048 (ascii "hello"))
    (fun _ => ⟨5, none⟩) [] rfl rfl (by decide) (by decide)).2.2.1⟩

/-- C8 fails on the code: in an iteration in which the read returns an error
(and the count 0), the loop prints the error and then goes on as for a
datagram: it dispatches one send with an empty payload to every destination. -/
theorem recv_error_dispatches :
    loopBody scenarioConfig { data := [], rlen := 0, err := some "use of closed connection" }
      = .next [Line.recvError "use of closed connection", Line.packet []]
          [{ addr := ⟨some (IPv4 127 0 0 1), 8514⟩, pkt := [], debug := 10 },
           { addr := ⟨some [0, 0, 0, 0, 0, 0, 0, 0, 0, 0, 0, 0, 0, 0, 0, 1], 7514⟩, pkt := [],
             debug := 10 }] := by
  decide

/-- C9 fails on the code: a failed send with verbosity above 8 prints the error
text and the "Sent" line as well. -/
theorem failed_send_prints_sent :
    (sendUDPpkt scenarioConn ⟨some (IPv4 127 0 0 1), 8514⟩ (ascii "hello") 9
        { n := 0, err := some "sendto: network is unreachable" }).out
      = [Line.sendError ⟨some (IPv4 127 0 0 1), 8514⟩,
         Line.sent 0 scenarioConn.LocalAddr ⟨some (IPv4 127 0 0 1), 8514⟩] := by
  decide

/-- C10. Payload bounds: for every configuration and every read result with
`0 ≤ rlen ≤ MaxBuf` (so `MaxBuf ≥ 0`), the slice `message[:rlen]` is in bounds:
the iteration does not panic and the slice has `rlen` bytes. The payload
dispatched to every destination is a contiguous part of those `rlen` bytes; if
it is not empty, neither its first nor its last rune is white space; its
length is at most `rlen ≤ MaxBuf`; and when the `rlen` bytes consist of white
space runes only, the payload is empty. -/
theorem payload_bounds (config : Configuration) (conn : UDPConn) (rd : ReadResult)
    (w : Nat → WriteResult) (h1 : 0 ≤ rd.rlen) (h2 : rd.rlen ≤ config.MaxBuf) :
    ((bufferAfterRead config.MaxBuf.toNat rd.data).take rd.rlen.toNat).length = rd.rlen.toNat ∧
    (cycle config conn rd w).step.continues = true ∧
    ∀ e ∈ (cycle config conn rd w).effects,
      (∃ a b, (bufferAfterRead config.MaxBuf.toNat rd.data).take rd.rlen.toNat
        = a ++ e.datagram ++ b) ∧
      (e.datagram ≠ [] →
        IsSpace (DecodeRuneInString e.datagram).1 = false ∧
        IsSpace (DecodeLastRuneInString e.datagram).1 = false) ∧
      (e.datagram.length : Int) ≤ rd.rlen ∧
      (e.datagram.length : Int) ≤ config.MaxBuf ∧
      ((∀ r ∈ runes ((bufferAfterRead config.MaxBuf.toNat rd.data).take rd.rlen.toNat),
          IsSpace r = true) → e.datagram = []) := by
  have hlen : ((bufferAfterRead config.MaxBuf.toNat rd.data).take rd.rlen.toNat).length
      = rd.rlen.toNat := by
    rw [List.length_take, bufferAfterRead_length]; omega
  refine ⟨hlen, (cycle_effects config conn rd w h1 h2).1, ?_⟩
  intro e he
  have h := mem_effects config conn rd w h1 h2 e he
  unfold payloadOf at h
  have hle := trimSpace_length_le
    ((bufferAfterRead config.MaxBuf.toNat rd.data).take rd.rlen.toNat)
  rw [hlen] at hle
  rw [h]
  refine ⟨trimSpace_contiguous _, fun hne => ⟨trimSpace_first _ hne, trimSpace_last _ hne⟩,
    by omega, by omega, trimSpace_allSpace _⟩

/-- Witness of C10: the datagram " \t\r\n", which is white space only, is
forwarded as the empty payload, and the iteration does not panic. -/
theorem payload_bounds_witness :
    (0 : Int) ≤ (recvDatagram 2048 (ascii " \t\r\n")).rlen ∧
    (recvDatagram 2048 (ascii " \t\r\n")).rlen ≤ scenarioConfig.MaxBuf ∧
    (cycle scenarioConfig scenarioConn (recvDatagram 2048 (ascii " \t\r\n"))
      (fun _ => ⟨0, none⟩)).step.continues = true ∧
    sendUDPpkt scenarioConn ⟨some (IPv4 127 0 0 1), 8514⟩ [] 10 ⟨0, none⟩
      ∈ (cycle scenarioConfig scenarioConn (recvDatagram 2048 (ascii " \t\r\n"))
          (fun _ => ⟨0, none⟩)).effects ∧
    (sendUDPpkt scenarioConn ⟨some (IPv4 127 0 0 1), 8514⟩ [] 10 ⟨0, none⟩).datagram = [] :=
  ⟨by decide, by decide,
   (payload_bounds scenarioConfig scenarioConn (recvDatagram 2048 (ascii " \t\r\n"))
    (fun _ => ⟨0, none⟩) (by decide) (by decide)).2.1,
   by decide,
   ((payload_bounds scenarioConfig scenarioConn (recvDatagram 2048 (ascii " \t\r\n"))
    (fun _ => ⟨0, none⟩) (by decide) (by decide)).2.2 _ (by decide)).2.2.2.2 (by decide)⟩

end Udpdup
